import Mathlib

/-!
Verification development for the GC2↔GSPro protocol tools.

The Python sources are embedded shallowly:
* `tools/mock_gspro_server.py` — JSON frame extraction (`extract_json`), message
  classification (`process_message`), and the per-connection buffer loop
  (`processBuffer`).
* `tools/gc2_simulator.py` / `tools/packet_loss_test.py` — packet chunking
  (`send_packets_chunks`) and the two-phase shot emission (`fire_shot_events`).
* `docs/python_gspro_client.py` — the `GSProClient` state machine
  (`connect`, `send_shot`, `send_heartbeat`, `send_status`, `send_message`).

JSON values are modelled by the inductive `Json` below; numbers are modelled as
integers (floating-point formatting is outside the embedding), and strings as
character lists.  `jsonDumps`-style encoding (`encodeJson`) models Python's
`json.dumps` on well-formed values (`wfJson`): printable ASCII strings with the
two-character escapes for quote and backslash, and objects with distinct keys
(Python dicts cannot hold duplicates).  `parseValue`/`loads` model the stdlib
`json.loads` / `JSONDecoder.raw_decode` on that grammar.
-/

/-- A JSON value: Python's `None`/`bool`/`int`/`str`/`list`/`dict`.
Strings are character lists; numbers are integers (float formatting is an
external concern of the embedding). -/
inductive Json where
  | null : Json
  | bool (b : Bool) : Json
  | num (n : Int) : Json
  | str (s : List Char) : Json
  | arr (xs : List Json) : Json
  | obj (kvs : List (List Char × Json)) : Json

instance : Inhabited Json := ⟨Json.null⟩

/-- The decimal digit character for `n < 10` (as produced by Python's `repr`). -/
def digitCh (n : Nat) : Char := Char.ofNat (48 + n)

/-- Fuelled decimal printer for naturals (`fuel > n` suffices). -/
def natToCharsAux : Nat → Nat → List Char
  | 0, _ => []
  | fuel + 1, n =>
    if n < 10 then [digitCh n]
    else natToCharsAux fuel (n / 10) ++ [digitCh (n % 10)]

/-- Decimal text of a natural number, as Python prints it. -/
def natToChars (n : Nat) : List Char := natToCharsAux (n + 1) n

/-- Decimal text of an integer, as Python prints it. -/
def intToChars (i : Int) : List Char :=
  if i < 0 then '-' :: natToChars i.natAbs else natToChars i.toNat

/-- The `json.dumps` escape of a single string character (well-formed strings
only need the quote and backslash escapes). -/
def escapeChar (c : Char) : List Char :=
  if c = '"' then ['\\', '"']
  else if c = '\\' then ['\\', '\\']
  else [c]

/-- Body of an encoded JSON string (without the delimiting quotes). -/
def encodeStringBody : List Char → List Char
  | [] => []
  | c :: rest => escapeChar c ++ encodeStringBody rest

/-- An encoded JSON string, including the delimiting quotes. -/
def encodeString (s : List Char) : List Char :=
  '"' :: (encodeStringBody s ++ ['"'])

mutual

/-- `json.dumps` with default separators (`", "` and `": "`). -/
def encodeJson : Json → List Char
  | .num i => intToChars i
  | .str s => encodeString s
  | .bool false => ['f', 'a', 'l', 's', 'e']
  | .bool true => ['t', 'r', 'u', 'e']
  | .null => ['n', 'u', 'l', 'l']
  | .arr xs => '[' :: (encodeItems xs ++ [']'])
  | .obj kvs => '{' :: (encodeMembers kvs ++ ['}'])

/-- Array elements joined by `", "`. -/
def encodeItems : List Json → List Char
  | [] => []
  | [x] => encodeJson x
  | x :: y :: rest => encodeJson x ++ ',' :: ' ' :: encodeItems (y :: rest)

/-- Object members `"key": value` joined by `", "`. -/
def encodeMembers : List (List Char × Json) → List Char
  | [] => []
  | [(k, v)] => encodeString k ++ ':' :: ' ' :: encodeJson v
  | (k, v) :: m :: rest =>
      encodeString k ++ ':' :: ' ' :: encodeJson v ++ ',' :: ' ' :: encodeMembers (m :: rest)

end

/-- A string character `json.dumps` emits literally or with a two-character
escape: printable ASCII. -/
def wfChar (c : Char) : Bool := 32 ≤ c.toNat && c.toNat < 127

mutual

/-- Well-formed JSON values: the fragment on which `encodeJson` agrees with
Python's `json.dumps` (printable-ASCII strings, objects with distinct keys). -/
def wfJson : Json → Bool
  | .null => true
  | .bool _ => true
  | .num _ => true
  | .str s => s.all wfChar
  | .arr xs => wfItems xs
  | .obj kvs => wfMembers kvs

/-- Well-formedness for array elements. -/
def wfItems : List Json → Bool
  | [] => true
  | x :: rest => wfJson x && wfItems rest

/-- Well-formedness for object members: printable keys, distinct keys,
well-formed values. -/
def wfMembers : List (List Char × Json) → Bool
  | [] => true
  | (k, v) :: rest =>
      k.all wfChar && wfJson v && rest.all (fun p => !(p.1 == k)) && wfMembers rest

end

/-- Python `str.strip` / `json` whitespace characters. -/
def pyIsSpace (c : Char) : Bool :=
  c = ' ' || c = '\t' || c = '\n' || c = '\r' || c = '\x0b' || c = '\x0c'

/-- Skip leading JSON whitespace. -/
def skipWs (s : List Char) : List Char := s.dropWhile pyIsSpace

/-- Accumulate a run of decimal digits (the scanner of an integer literal). -/
def parseDigitsAux : List Char → Nat → Nat × List Char
  | [], acc => (acc, [])
  | c :: rest, acc =>
    if c.isDigit then parseDigitsAux rest (acc * 10 + (c.toNat - 48))
    else (acc, c :: rest)

/-- Parse a non-empty run of decimal digits. -/
def parseNat : List Char → Option (Nat × List Char)
  | [] => none
  | c :: rest => if c.isDigit then some (parseDigitsAux (c :: rest) 0) else none

/-- Parse an optionally signed integer literal. -/
def parseInt (s : List Char) : Option (Int × List Char) :=
  if s.head? = some '-' then (parseNat s.tail).map (fun p => (-(p.1 : Int), p.2))
  else (parseNat s).map (fun p => ((p.1 : Int), p.2))

/-- Parse the body of a JSON string up to and including the closing quote,
undoing the quote/backslash escapes. -/
def parseStringBody : List Char → Option (List Char × List Char)
  | [] => none
  | c :: rest =>
    if c = '"' then some ([], rest)
    else if c = '\\' then
      match rest with
      | [] => none
      | e :: rest2 =>
        if e = '"' || e = '\\' then (parseStringBody rest2).map (fun p => (e :: p.1, p.2))
        else none
    else (parseStringBody rest).map (fun p => (c :: p.1, p.2))

/-- Which nonterminal the fuelled decoder is parsing. -/
inductive PMode where
  | value : PMode
  | items : PMode
  | members : PMode

/-- Result of one nonterminal of the fuelled decoder. -/
inductive PRes where
  | val (v : Json) : PRes
  | items (xs : List Json) : PRes
  | members (kvs : List (List Char × Json)) : PRes

/-- One layer of the recursive-descent JSON decoder: `rec` stands for the
recursive occurrences (tied by fuel in `parseAny`).  The `value` mode parses
one value; `items` parses the elements of a non-empty array up to and
including the closing `]`; `members` parses the members of a non-empty object
up to and including the closing `}`.  Together with `parseAny` this is the
model of the stdlib `json` decoder on the grammar `encodeJson` produces
(integer numbers, string escapes for quote and backslash). -/
def parseStep (rec : PMode → List Char → Option (PRes × List Char)) :
    PMode → List Char → Option (PRes × List Char)
  | .value, s =>
    match s with
    | [] => none
    | c :: rest =>
      if c = 'n' then
        match rest with
        | 'u' :: 'l' :: 'l' :: r => some (.val .null, r)
        | _ => none
      else if c = 't' then
        match rest with
        | 'r' :: 'u' :: 'e' :: r => some (.val (.bool true), r)
        | _ => none
      else if c = 'f' then
        match rest with
        | 'a' :: 'l' :: 's' :: 'e' :: r => some (.val (.bool false), r)
        | _ => none
      else if c = '"' then
        (parseStringBody rest).map (fun p => (.val (.str p.1), p.2))
      else if c = '[' then
        let rest' := skipWs rest
        if rest'.head? = some ']' then some (.val (.arr []), rest'.tail)
        else
          match rec .items rest' with
          | some (.items xs, r) => some (.val (.arr xs), r)
          | _ => none
      else if c = '{' then
        let rest' := skipWs rest
        if rest'.head? = some '}' then some (.val (.obj []), rest'.tail)
        else
          match rec .members rest' with
          | some (.members kvs, r) => some (.val (.obj kvs), r)
          | _ => none
      else
        (parseInt (c :: rest)).map (fun p => (.val (.num p.1), p.2))
  | .items, s =>
    match rec .value s with
    | some (.val v, rest) =>
      let r2 := skipWs rest
      if r2.head? = some ',' then
        match rec .items (skipWs r2.tail) with
        | some (.items xs, r) => some (.items (v :: xs), r)
        | _ => none
      else if r2.head? = some ']' then some (.items [v], r2.tail)
      else none
    | _ => none
  | .members, s =>
    match s with
    | [] => none
    | c :: rest =>
      if c = '"' then
        match parseStringBody rest with
        | none => none
        | some (k, r1) =>
          let r1s := skipWs r1
          if r1s.head? = some ':' then
            match rec .value (skipWs r1s.tail) with
            | some (.val v, r3) =>
              let r3s := skipWs r3
              if r3s.head? = some ',' then
                match rec .members (skipWs r3s.tail) with
                | some (.members kvs, r) => some (.members ((k, v) :: kvs), r)
                | _ => none
              else if r3s.head? = some '}' then some (.members [(k, v)], r3s.tail)
              else none
            | _ => none
          else none
      else none

/-- The fuelled recursive-descent JSON decoder: `fuel` bounds the nesting
depth the decoder can handle. -/
def parseAny : Nat → PMode → List Char → Option (PRes × List Char)
  | 0, _, _ => none
  | fuel + 1, mode, s => parseStep (parseAny fuel) mode s

/-- Parse one JSON value (the stdlib decoder's entry point). -/
def parseValue (fuel : Nat) (s : List Char) : Option (Json × List Char) :=
  match parseAny fuel .value s with
  | some (.val v, r) => some (v, r)
  | _ => none

/-- Model of `json.loads`: decode one value, allowing surrounding whitespace,
and insist that nothing else follows. -/
def loads (s : List Char) : Option Json :=
  match parseValue (s.length + 1) (skipWs s) with
  | some (v, rest) => if skipWs rest = [] then some v else none
  | none => none

/-- Model of `json.JSONDecoder().raw_decode`: decode the first value of the
string and return it with the unconsumed remainder. -/
def rawDecode (s : List Char) : Option (Json × List Char) :=
  parseValue (s.length + 1) s

/-- The three scanner flags of `MockGSProServer._extract_json`: brace depth
(Python int), in-string flag, pending-escape flag. -/
structure ScanState where
  depth : Int
  in_string : Bool
  escape : Bool
deriving DecidableEq

/-- One character step of the `_extract_json` scan loop (state update). -/
def scanStep (st : ScanState) (c : Char) : ScanState :=
  if st.escape then { st with escape := false }
  else if c = '\\' then { st with escape := true }
  else if c = '"' then { st with in_string := !st.in_string }
  else if st.in_string then st
  else if c = '{' then { st with depth := st.depth + 1 }
  else if c = '}' then { st with depth := st.depth - 1 }
  else st

/-- Whether the `_extract_json` loop returns at this character: an unescaped
`}` outside a string that brings the depth from 1 to 0. -/
def scanDone (st : ScanState) (c : Char) : Bool :=
  !st.escape && !st.in_string && c = '}' && st.depth = 1

/-- The `for i, char in enumerate(buffer)` loop of `_extract_json`: the index
just past the closing brace of the first complete object, if any. -/
def scanGo : List Char → ScanState → Option Nat
  | [], _ => none
  | c :: rest, st =>
    if scanDone st c then some 1
    else (scanGo rest (scanStep st c)).map (· + 1)

/-- Running the scanner over a chunk of characters, ignoring completion. -/
def runScan (s : List Char) (st : ScanState) : ScanState := s.foldl scanStep st

/-- Python `buffer.strip().startswith("{")`. -/
def stripStartsWithBrace (s : List Char) : Bool :=
  match skipWs s with
  | [] => false
  | c :: _ => c = '{'

/-- Result of `MockGSProServer._extract_json`: a decoded object with its end
index, a `(None, idx)` report, or a raised `json.JSONDecodeError`. -/
inductive ExtractResult where
  | found (j : Json) (idx : Nat) : ExtractResult
  | noObject (idx : Nat) : ExtractResult
  | decodeError : ExtractResult

/-- The consumed-index component of an extraction result (the second element
of the Python return tuple; a raised decode error has no index). -/
def consumedIdx : ExtractResult → Nat
  | .found _ i => i
  | .noObject i => i
  | .decodeError => 0

/-- Brace-matching scan of `_extract_json` after the leading-noise handling:
scan from depth 0, and on completion decode `buffer[: i + 1]`. -/
def extractScan (buf : List Char) : ExtractResult :=
  match scanGo buf ⟨0, false, false⟩ with
  | some idx =>
    match loads (buf.take idx) with
    | some j => .found j idx
    | none => .decodeError
  | none => .noObject 0

/-- `MockGSProServer._extract_json`: locate the first `{` (returning
`(None, len(buffer))` when there is none), then brace-match a complete object,
tracking string and escape context. -/
def extract_json (buffer : List Char) : ExtractResult :=
  if stripStartsWithBrace buffer then extractScan buffer
  else
    match buffer.findIdx? (· = '{') with
    | none => .noObject buffer.length
    | some start => extractScan (buffer.drop start)

/-- First-match association lookup in an object's member list (Python dicts
have unique keys, so this is dict lookup). -/
def lookupMember (key : List Char) : List (List Char × Json) → Option Json
  | [] => none
  | (k, v) :: rest => if k = key then some v else lookupMember key rest

/-- Python `dict.get(key, default)`, raising (modelled as `none`) when the
receiver is not a dict. -/
def pyDictGet (j : Json) (key : List Char) (default : Json) : Option Json :=
  match j with
  | .obj kvs => some ((lookupMember key kvs).getD default)
  | _ => none

/-- Python truthiness of a JSON value (`if value:`). -/
def pyTruthy : Json → Bool
  | .null => false
  | .bool b => b
  | .num n => !(n == 0)
  | .str s => !s.isEmpty
  | .arr xs => !xs.isEmpty
  | .obj kvs => !kvs.isEmpty

/-- The three counters of `MockGSProServer`. -/
structure ServerCounts where
  shot_count : Nat
  heartbeat_count : Nat
  status_count : Nat
deriving DecidableEq

/-- The fixed response `_process_message` builds for a shot. -/
def gsproShotResponse : Json :=
  .obj [("Code".toList, .num 201),
        ("Message".toList, .str "Shot received".toList),
        ("Player".toList, .obj [("Handed".toList, .str "RH".toList),
                                ("Club".toList, .str "DR".toList),
                                ("DistanceToTarget".toList, .num 250)])]

/-- `MockGSProServer._process_message`: classify by the capability flags and
dispatch.  Heartbeats and status updates only bump their counters and return
no response; a shot bumps the shot counter and returns the fixed 201 response.
`none` models an uncaught exception (`.get` on a non-dict field).  The
`.get` reads that feed only log output are represented by one read per
accessed dict (logging itself is outside the embedding); the artificial
response delay is a timing effect outside the embedding. -/
def process_message (st : ServerCounts) (message : Json) :
    Option (ServerCounts × Option Json) :=
  match pyDictGet message "ShotDataOptions".toList (.obj []) with
  | none => none
  | some options =>
    match pyDictGet options "IsHeartBeat".toList (.bool false),
          pyDictGet options "ContainsBallData".toList (.bool false) with
    | some is_heartbeat, some has_ball_data =>
      if pyTruthy is_heartbeat then
        some ({ st with heartbeat_count := st.heartbeat_count + 1 }, none)
      else if pyTruthy has_ball_data = false then
        some ({ st with status_count := st.status_count + 1 }, none)
      else
        match pyDictGet message "BallData".toList (.obj []) with
        | none => none
        | some ball_data =>
          match pyDictGet ball_data "Speed".toList (.num 0) with
          | none => none
          | some _speed =>
            match pyDictGet message "ClubData".toList (.obj []) with
            | none => none
            | some club_data =>
              if pyTruthy club_data then
                match pyDictGet club_data "Speed".toList (.num 0) with
                | none => none
                | some _cs =>
                  some ({ st with shot_count := st.shot_count + 1 },
                        some gsproShotResponse)
              else
                some ({ st with shot_count := st.shot_count + 1 },
                      some gsproShotResponse)
    | _, _ => none

/-- Python `buffer.find("{", 1)` as used by the decode-error recovery. -/
def findBraceFrom1 (buf : List Char) : Option Nat :=
  ((buf.drop 1).findIdx? (· = '{')).map (· + 1)

/-- Outcome of the `while buffer:` message loop of
`MockGSProServer._handle_client` on one accumulated buffer. -/
inductive LoopResult where
  | ok (st : ServerCounts) (buffer : List Char) (responses : List Json) : LoopResult
  | raised (st : ServerCounts) : LoopResult

/-- The `while buffer:` loop of `_handle_client`: repeatedly extract one
object, truncate the buffer by the consumed index and `lstrip` it, dispatch
the message and collect any response; stop on an incomplete buffer, and on a
decode error skip to the next `{` (or clear the buffer) and stop reading the
current data.  The fuel bounds the number of iterations. -/
def processBuffer : Nat → ServerCounts → List Char → LoopResult
  | 0, st, buf => .ok st buf []
  | fuel + 1, st, buf =>
    if buf = [] then .ok st buf []
    else
      match extract_json buf with
      | .noObject _ => .ok st buf []
      | .decodeError =>
        match findBraceFrom1 buf with
        | some nb => .ok st (buf.drop nb) []
        | none => .ok st [] []
      | .found m idx =>
        let buf' := skipWs (buf.drop idx)
        match process_message st m with
        | none => .raised st
        | some (st', resp) =>
          match processBuffer fuel st' buf' with
          | .ok st2 buf2 rs => .ok st2 buf2 (resp.toList ++ rs)
          | .raised st2 => .raised st2

/-- One bounded iteration of the chunking `while offset < len(encoded):` loop
shared by `GC2Simulator._send_packets` and
`PacketLossStressTester._send_packets`: take the next slice of at most
`size` elements and advance the offset by `size`.  The fuel never runs out
for `size ≥ 1` when it starts at the length of the data. -/
def chunksAux (size : Nat) : Nat → List α → List (List α)
  | 0, _ => []
  | _, [] => []
  | fuel + 1, l => l.take size :: chunksAux size fuel (l.drop size)

/-- The ordered chunks written by `_send_packets` for an encoded payload. -/
def send_packets_chunks (size : Nat) (encoded : List α) : List (List α) :=
  chunksAux size encoded.length encoded

/-- UTF-8 bytes of an outbound message (`data.encode("utf-8")`). -/
def utf8Bytes (m : String) : List UInt8 := m.toUTF8.toList

/-- UTF-8 bytes of a message carried as a character list. -/
def utf8OfChars (s : List Char) : List UInt8 := utf8Bytes (String.mk s)

/-- Simulated GC2 shot data (`ShotData` in `gc2_simulator.py`).  The float
fields are carried as their formatted decimal text (`f"{x:.2f}"` /
`f"{x:.0f}"` / `f"{x:.1f}"`): float formatting is an external concern, and
every use of these fields in the message builder goes through exactly that
formatting. -/
structure ShotData where
  shot_id : Nat
  speed_mph : List Char
  launch_angle : List Char
  direction : List Char
  total_spin : List Char
  back_spin : List Char
  side_spin : List Char
  club_speed : Option (List Char)
  path : Option (List Char)
  attack_angle : Option (List Char)
  face_to_target : Option (List Char)

/-- The `lines` list built by `GC2Simulator._build_shot_message`. -/
def build_shot_lines (shot : ShotData) (msec_since_contact : Nat)
    (include_spin : Bool) : List (List Char) :=
  ["0H".toList,
   "SHOT_ID=".toList ++ natToChars shot.shot_id,
   "TIME_SEC=0".toList,
   "MSEC_SINCE_CONTACT=".toList ++ natToChars msec_since_contact,
   "SPEED_MPH=".toList ++ shot.speed_mph,
   "AZIMUTH_DEG=".toList ++ shot.direction,
   "ELEVATION_DEG=".toList ++ shot.launch_angle,
   "SPIN_RPM=".toList ++ shot.total_spin]
  ++ (if include_spin then
        ["BACK_RPM=".toList ++ shot.back_spin,
         "SIDE_RPM=".toList ++ shot.side_spin]
      else [])
  ++ ["IS_LEFT=0".toList,
      "WORLDSTART_X=-53.53".toList,
      "WORLDSTART_Y=91.40".toList,
      "WORLDSTART_Z=-477.94".toList]
  ++ (match shot.club_speed with
      | some cs =>
        ["HMT=1".toList, "CLUBSPEED_MPH=".toList ++ cs]
        ++ (match shot.path with
            | some p => ["HPATH_DEG=".toList ++ p]
            | none => [])
        ++ (match shot.attack_angle with
            | some a => ["VPATH_DEG=".toList ++ a]
            | none => [])
        ++ (match shot.face_to_target with
            | some f => ["FACE_T_DEG=".toList ++ f]
            | none => [])
      | none => ["HMT=0".toList])

/-- Python `"\n".join(lines)`. -/
def joinLines : List (List Char) → List Char
  | [] => []
  | [l] => l
  | l :: m :: rest => l ++ '\n' :: joinLines (m :: rest)

/-- `GC2Simulator._build_shot_message`: the joined lines plus the `"\n\t"`
message terminator. -/
def build_shot_message (shot : ShotData) (msec_since_contact : Nat)
    (include_spin : Bool) : List Char :=
  joinLines (build_shot_lines shot msec_since_contact include_spin) ++ ['\n', '\t']

/-- One observable event on a simulator connection: a written packet, the
inter-packet sleep of `_send_packets`, or the inter-phase sleep of
`fire_shot` (`final_reading_delay_ms`). -/
inductive WireEvent where
  | packet (chunk : List UInt8) : WireEvent
  | interPacketDelay : WireEvent
  | interPhaseDelay : WireEvent
deriving DecidableEq

/-- The event trace of `_send_packets`: the UTF-8 encoded payload's chunks in
send order, with the inter-packet sleep after every chunk except the last
(the sleep is guarded by `offset < len(encoded)`). -/
def sendPacketsEvents (size : Nat) (data : List Char) : List WireEvent :=
  (send_packets_chunks size (utf8OfChars data)).map WireEvent.packet
    |>.intersperse WireEvent.interPacketDelay

/-- The per-writer body of `GC2Simulator.fire_shot`: transmit the early
reading (msec 200, no spin), sleep the inter-phase delay, then transmit the
final reading (msec 1000, with spin) for the same shot. -/
def fire_shot_events (size : Nat) (shot : ShotData) : List WireEvent :=
  sendPacketsEvents size (build_shot_message shot 200 false)
  ++ WireEvent.interPhaseDelay
  :: sendPacketsEvents size (build_shot_message shot 1000 true)

/-- Modelled from the spec: `GSProShotOptions` lives in `gc2_connect.models`,
which is not under `src/`.  Per the spec it is the set of boolean capability
flags of a message (contains-ball-data, contains-club-data,
launch-monitor-ready, ball-detected, is-heartbeat); `LaunchMonitorBallDetected`
defaults to false when not passed. -/
structure GSProShotOptions where
  ContainsBallData : Bool
  ContainsClubData : Bool
  LaunchMonitorIsReady : Bool
  LaunchMonitorBallDetected : Bool := false
  IsHeartBeat : Bool
deriving DecidableEq

/-- Modelled from the spec: `GSProShotMessage` lives in `gc2_connect.models`,
which is not under `src/`.  Per the spec a message carries the session shot
number, the capability flags, and optional ball/club payload (carried here as
opaque JSON). -/
structure GSProShotMessage where
  ShotNumber : Nat
  ShotDataOptions : GSProShotOptions
  BallData : Option Json := none

/-- Modelled from the spec: `GC2ShotData` lives in `gc2_connect.models`, which
is not under `src/`.  The telemetry record is opaque to the client logic under
study; it is carried as a JSON payload. -/
structure GC2ShotData where
  ballData : Json

/-- Modelled from the spec: `GC2BallStatus` lives in `gc2_connect.models`,
which is not under `src/`.  It carries the device-ready and ball-detected
flags used by `send_status`. -/
structure GC2BallStatus where
  is_ready : Bool
  ball_detected : Bool
deriving DecidableEq

/-- Modelled from the spec: `GSProShotMessage.from_gc2_shot` lives in
`gc2_connect.models`, which is not under `src/`.  Per the spec a shot message
carries the given sequence number, sets the ball-data flag, is not a
heartbeat, and embeds the telemetry payload. -/
def shotMessageFromGC2 (shot : GC2ShotData) (shotNumber : Nat) : GSProShotMessage :=
  { ShotNumber := shotNumber,
    ShotDataOptions :=
      { ContainsBallData := true,
        ContainsClubData := false,
        LaunchMonitorIsReady := true,
        IsHeartBeat := false },
    BallData := some shot.ballData }

/-- Modelled from the spec: `GSProResponse` lives in `gc2_connect.models`,
which is not under `src/`.  Per the spec a response carries a numeric code, a
message text, and an optional player record. -/
structure GSProResponse where
  Code : Int
  Player : Option Json

/-- Modelled from the spec: `GSProResponse.from_dict` lives in
`gc2_connect.models`, which is not under `src/`.  Missing or non-numeric
fields default (code 0, no player). -/
def responseFromDict (j : Json) : GSProResponse :=
  { Code :=
      match j with
      | .obj kvs =>
        match lookupMember "Code".toList kvs with
        | some (.num n) => n
        | _ => 0
      | _ => 0,
    Player :=
      match j with
      | .obj kvs => lookupMember "Player".toList kvs
      | _ => none }

/-- Python truthiness of the optional `Player` record (`response.Player`). -/
def playerTruthy (r : GSProResponse) : Bool :=
  match r.Player with
  | some p => pyTruthy p
  | none => false

/-- The mutable state of a `GSProClient`: whether `self._socket` is a live
socket object, the `_connected` flag, the session shot number, the cached
player record, and the registered callbacks (represented by opaque
identifiers, in registration order). -/
structure GSProClient where
  socket : Bool
  connected : Bool
  shot_number : Nat
  current_player : Option Json
  response_callbacks : List Nat
  disconnect_callbacks : List Nat

/-- A freshly constructed `GSProClient`. -/
def initClient : GSProClient :=
  { socket := false, connected := false, shot_number := 0,
    current_player := none, response_callbacks := [], disconnect_callbacks := [] }

/-- What the transport did during one `_send_message` exchange: the drain,
send and (when expected) receive all succeeded, with `received` the bytes the
blocking `recv` returned (`none` models an empty read); or a
`TimeoutError` was raised at some blocking call; or an `OSError` was raised
at some socket call. -/
inductive SocketOutcome where
  | ok (received : Option (List Char)) : SocketOutcome
  | timeout : SocketOutcome
  | osError : SocketOutcome
deriving DecidableEq

/-- Result of one client operation: the updated client, the returned
response, the message built for the exchange (if the operation got that far),
and the callbacks invoked (in invocation order). -/
structure SendResult where
  client : GSProClient
  response : Option GSProResponse
  built : Option GSProShotMessage
  disconnect_notified : List Nat
  response_notified : List Nat

/-- `GSProClient._send_message`: drain stale bytes, send the encoded message,
and (when a response is expected) block for one `recv`, decode the first JSON
object of the reply, cache the player record on a 201 response with a truthy
player, and notify the response observers.  A `TimeoutError` returns no
response and leaves the state alone; an `OSError` clears `_connected` and
notifies the disconnect observers only if the client was connected; a decode
failure returns no response. -/
def send_message (c : GSProClient) (message : GSProShotMessage)
    (expect_response : Bool) (outcome : SocketOutcome) : SendResult :=
  if c.socket = false then
    { client := c, response := none, built := some message,
      disconnect_notified := [], response_notified := [] }
  else
    match outcome with
    | .timeout =>
      { client := c, response := none, built := some message,
        disconnect_notified := [], response_notified := [] }
    | .osError =>
      let was_connected := c.connected
      { client := { c with connected := false }, response := none,
        built := some message,
        disconnect_notified := if was_connected then c.disconnect_callbacks else [],
        response_notified := [] }
    | .ok received =>
      if expect_response = false then
        { client := c, response := none, built := some message,
          disconnect_notified := [], response_notified := [] }
      else
        match received with
        | none =>
          { client := c, response := none, built := some message,
            disconnect_notified := [], response_notified := [] }
        | some data =>
          match rawDecode data with
          | none =>
            { client := c, response := none, built := some message,
              disconnect_notified := [], response_notified := [] }
          | some (rj, _) =>
            let r := responseFromDict rj
            let c' := if r.Code = 201 && playerTruthy r then
                        { c with current_player := r.Player }
                      else c
            { client := c', response := some r, built := some message,
              disconnect_notified := [], response_notified := c.response_callbacks }

/-- `GSProClient.send_shot`: only when connected; increment the session shot
number, build the shot message from the telemetry, and exchange expecting a
response. -/
def send_shot (c : GSProClient) (shot : GC2ShotData)
    (outcome : SocketOutcome) : SendResult :=
  if c.connected = false || c.socket = false then
    { client := c, response := none, built := none,
      disconnect_notified := [], response_notified := [] }
  else
    let c1 := { c with shot_number := c.shot_number + 1 }
    let message := shotMessageFromGC2 shot c1.shot_number
    send_message c1 message true outcome

/-- `GSProClient.send_heartbeat`: only when connected; build the heartbeat
variant (heartbeat flag set, data flags clear) at the current shot number and
exchange with no response expected. -/
def send_heartbeat (c : GSProClient) (outcome : SocketOutcome) : SendResult :=
  if c.connected = false || c.socket = false then
    { client := c, response := none, built := none,
      disconnect_notified := [], response_notified := [] }
  else
    let message : GSProShotMessage :=
      { ShotNumber := c.shot_number,
        ShotDataOptions :=
          { ContainsBallData := false,
            ContainsClubData := false,
            LaunchMonitorIsReady := true,
            IsHeartBeat := true } }
    send_message c message false outcome

/-- `GSProClient.send_status`: only when connected; build the status variant
(data flags clear, heartbeat flag clear, ready/ball-detected from the status)
at the current shot number and exchange with no response expected. -/
def send_status (c : GSProClient) (status : GC2BallStatus)
    (outcome : SocketOutcome) : SendResult :=
  if c.connected = false || c.socket = false then
    { client := c, response := none, built := none,
      disconnect_notified := [], response_notified := [] }
  else
    let message : GSProShotMessage :=
      { ShotNumber := c.shot_number,
        ShotDataOptions :=
          { ContainsBallData := false,
            ContainsClubData := false,
            LaunchMonitorIsReady := status.is_ready,
            LaunchMonitorBallDetected := status.ball_detected,
            IsHeartBeat := false } }
    send_message c message false outcome

/-- Result of `GSProClient.connect`: the updated client, the boolean return
value, and the disconnect callbacks invoked during the initial heartbeat. -/
structure ConnectResult where
  client : GSProClient
  ok : Bool
  disconnect_notified : List Nat

/-- `GSProClient.connect`: open the socket (`conn_ok` says whether
`socket.create_connection` succeeded), set `_connected`, send the initial
heartbeat (whose exchange outcome is `hb_outcome`; its exceptions are caught
inside `_send_message`), and return `True`; on a connection failure clear the
socket and the flag and return `False`. -/
def connect (c : GSProClient) (conn_ok : Bool)
    (hb_outcome : SocketOutcome) : ConnectResult :=
  if conn_ok then
    let c1 := { c with socket := true, connected := true }
    let r := send_heartbeat c1 hb_outcome
    { client := r.client, ok := true, disconnect_notified := r.disconnect_notified }
  else
    { client := { c with socket := false, connected := false }, ok := false,
      disconnect_notified := [] }

/-- `GSProClient.disconnect`: close and drop the socket, clear the flag. -/
def disconnect (c : GSProClient) : GSProClient :=
  { c with socket := false, connected := false }

/-- The messages built by a sequence of `send_shot` calls whose exchanges
each return without data (`recv` yields nothing before the timeout is
modelled as an empty read: the connection stays up). -/
def fireShotsFrom (c : GSProClient) : List GC2ShotData → List GSProShotMessage
  | [] => []
  | s :: rest =>
    let r := send_shot c s (.ok none)
    (match r.built with
     | some m => [m]
     | none => []) ++ fireShotsFrom r.client rest

/-- A list whose head (if any) cannot extend a decimal literal. -/
def delimOk : List Char → Bool
  | [] => true
  | c :: _ => !c.isDigit

theorem digitCh_isDigit (n : Nat) (h : n < 10) : (digitCh n).isDigit = true := by
  interval_cases n <;> decide

theorem digitCh_toNat (n : Nat) (h : n < 10) : (digitCh n).toNat = 48 + n := by
  interval_cases n <;> decide

theorem isDigit_ne (c d : Char) (hd : d.isDigit = false) (h : c.isDigit = true) :
    c ≠ d := by
  intro he
  rw [he, hd] at h
  exact Bool.false_ne_true h

theorem natToCharsAux_all_digits (fuel : Nat) :
    ∀ n, (natToCharsAux fuel n).all Char.isDigit = true := by
  induction fuel with
  | zero => intro n; simp [natToCharsAux]
  | succ f ih =>
    intro n
    by_cases h : n < 10
    · simp [natToCharsAux, h, digitCh_isDigit n h]
    · have hm : n % 10 < 10 := Nat.mod_lt _ (by norm_num)
      simp [natToCharsAux, h, List.all_append, ih (n / 10), digitCh_isDigit _ hm]

theorem natToCharsAux_ne_nil (fuel n : Nat) (h : 0 < fuel) :
    natToCharsAux fuel n ≠ [] := by
  cases fuel with
  | zero => omega
  | succ f =>
    by_cases h10 : n < 10 <;> simp [natToCharsAux, h10]

theorem natToChars_ne_nil (n : Nat) : natToChars n ≠ [] :=
  natToCharsAux_ne_nil (n + 1) n (Nat.succ_pos n)

theorem natToChars_all_digits (n : Nat) :
    (natToChars n).all Char.isDigit = true :=
  natToCharsAux_all_digits (n + 1) n

theorem parseDigitsAux_delim (rest : List Char) (acc : Nat)
    (h : delimOk rest = true) : parseDigitsAux rest acc = (acc, rest) := by
  cases rest with
  | nil => simp [parseDigitsAux]
  | cons c t =>
    simp only [delimOk, Bool.not_eq_true'] at h
    simp [parseDigitsAux, h]

theorem parseDigitsAux_append (fuel : Nat) :
    ∀ n acc rest, n < fuel →
      parseDigitsAux (natToCharsAux fuel n ++ rest) acc =
        parseDigitsAux rest (acc * 10 ^ (natToCharsAux fuel n).length + n) := by
  induction fuel with
  | zero => intro n _ _ h; omega
  | succ f ih =>
    intro n acc rest hn
    by_cases h : n < 10
    · simp [natToCharsAux, h, parseDigitsAux, digitCh_isDigit n h, digitCh_toNat n h]
    · have hlt : n / 10 < f := by omega
      have hm : n % 10 < 10 := Nat.mod_lt _ (by norm_num)
      rw [natToCharsAux]
      simp only [if_neg h, List.append_assoc, List.cons_append, List.nil_append]
      rw [ih (n / 10) acc (digitCh (n % 10) :: rest) hlt]
      rw [parseDigitsAux]
      simp only [digitCh_isDigit _ hm, if_pos, digitCh_toNat _ hm]
      congr 1
      simp only [List.length_append, List.length_cons, List.length_nil]
      have h3 : 48 + n % 10 - 48 = n % 10 := by omega
      have h2 : n / 10 * 10 + n % 10 = n := by omega
      calc (acc * 10 ^ (natToCharsAux f (n / 10)).length + n / 10) * 10 + (48 + n % 10 - 48)
          = acc * (10 ^ (natToCharsAux f (n / 10)).length * 10) + (n / 10 * 10 + n % 10) := by
            rw [h3]; ring
        _ = acc * 10 ^ ((natToCharsAux f (n / 10)).length + (0 + 1)) + n := by
            rw [h2, pow_succ]

theorem parseNat_natToChars (n : Nat) (rest : List Char)
    (h : delimOk rest = true) :
    parseNat (natToChars n ++ rest) = some (n, rest) := by
  obtain ⟨c, t, hct⟩ : ∃ c t, natToChars n = c :: t := by
    cases hnt : natToChars n with
    | nil => exact absurd hnt (natToChars_ne_nil n)
    | cons c t => exact ⟨c, t, rfl⟩
  have hdig : c.isDigit = true := by
    have := natToChars_all_digits n
    rw [hct] at this
    simp [List.all_cons] at this
    exact this.1
  rw [hct]
  simp only [List.cons_append, parseNat, hdig, if_pos]
  rw [← List.cons_append, ← hct]
  unfold natToChars
  rw [parseDigitsAux_append (n + 1) n 0 rest (Nat.lt_succ_self n),
      parseDigitsAux_delim rest _ h]
  simp

theorem parseStringBody_quote (rest : List Char) :
    parseStringBody ('"' :: rest) = some ([], rest) := by
  rw [parseStringBody.eq_def]
  dsimp only
  rw [if_pos rfl]

theorem parseStringBody_other (c : Char) (rest : List Char)
    (hq : c ≠ '"') (hb : c ≠ '\\') :
    parseStringBody (c :: rest) =
      (parseStringBody rest).map (fun p => (c :: p.1, p.2)) := by
  rw [parseStringBody.eq_def]
  dsimp only
  rw [if_neg hq, if_neg hb]

theorem parseStringBody_encode (s rest : List Char) :
    parseStringBody (encodeStringBody s ++ '"' :: rest) = some (s, rest) := by
  induction s with
  | nil => simp [encodeStringBody, parseStringBody_quote]
  | cons c s ih =>
    by_cases hq : c = '"'
    · subst hq
      simp [encodeStringBody, escapeChar, parseStringBody, ih]
    · by_cases hb : c = '\\'
      · subst hb
        simp [encodeStringBody, escapeChar, parseStringBody, ih]
      · simp [encodeStringBody, escapeChar, hq, hb, parseStringBody_other c _ hq hb, ih]

theorem digit_not_space (c : Char) (h : c.isDigit = true) : pyIsSpace c = false := by
  have h1 : c ≠ ' ' := isDigit_ne c ' ' (by decide) h
  have h2 : c ≠ '\t' := isDigit_ne c '\t' (by decide) h
  have h3 : c ≠ '\n' := isDigit_ne c '\n' (by decide) h
  have h4 : c ≠ '\r' := isDigit_ne c '\r' (by decide) h
  have h5 : c ≠ '\x0b' := isDigit_ne c '\x0b' (by decide) h
  have h6 : c ≠ '\x0c' := isDigit_ne c '\x0c' (by decide) h
  simp [pyIsSpace, h1, h2, h3, h4, h5, h6]

theorem skipWs_cons_not_space (c : Char) (t : List Char) (h : pyIsSpace c = false) :
    skipWs (c :: t) = c :: t := by
  simp [skipWs, List.dropWhile_cons, h]

theorem skipWs_cons_space (c : Char) (t : List Char) (h : pyIsSpace c = true) :
    skipWs (c :: t) = skipWs t := by
  simp [skipWs, List.dropWhile_cons, h]

/-- Head shape of an encoded value: non-empty, starts with a character that is
neither whitespace nor a closing bracket, brace or comma. -/
theorem encode_head_spec (v : Json) :
    ∃ c t, encodeJson v = c :: t ∧ pyIsSpace c = false ∧ c ≠ ']' ∧ c ≠ '}' := by
  cases v with
  | null => exact ⟨'n', _, rfl, by decide⟩
  | bool b => cases b
              · exact ⟨'f', _, rfl, by decide⟩
              · exact ⟨'t', _, rfl, by decide⟩
  | num i =>
    by_cases hneg : i < 0
    · refine ⟨'-', natToChars i.natAbs, ?_, by decide, by decide, by decide⟩
      simp [encodeJson, intToChars, hneg]
    · obtain ⟨c, t, hct⟩ : ∃ c t, natToChars i.toNat = c :: t := by
        cases hnt : natToChars i.toNat with
        | nil => exact absurd hnt (natToChars_ne_nil _)
        | cons c t => exact ⟨c, t, rfl⟩
      have hdig : c.isDigit = true := by
        have := natToChars_all_digits i.toNat
        rw [hct] at this
        simp [List.all_cons] at this
        exact this.1
      refine ⟨c, t, ?_, digit_not_space c hdig, ?_, ?_⟩
      · simp [encodeJson, intToChars, hneg, hct]
      · exact isDigit_ne c ']' (by decide) hdig
      · exact isDigit_ne c '}' (by decide) hdig
  | str s => exact ⟨'"', _, rfl, by decide⟩
  | arr xs => exact ⟨'[', _, rfl, by decide⟩
  | obj kvs => exact ⟨'\x7b', _, rfl, by decide⟩

theorem skipWs_encode_append (v : Json) (r : List Char) :
    skipWs (encodeJson v ++ r) = encodeJson v ++ r := by
  obtain ⟨c, t, hv, hsp, _, _⟩ := encode_head_spec v
  rw [hv, List.cons_append, skipWs_cons_not_space c _ hsp]

mutual

/-- Fuel sufficient for `parseValue` to decode `encodeJson v`. -/
def jsonFuel : Json → Nat
  | .null => 1
  | .bool _ => 1
  | .num _ => 1
  | .str _ => 1
  | .arr xs => 1 + itemsFuel xs
  | .obj kvs => 1 + membersFuel kvs

/-- Fuel sufficient for `parseItems` on an encoded element list. -/
def itemsFuel : List Json → Nat
  | [] => 0
  | x :: rest => 1 + max (jsonFuel x) (itemsFuel rest)

/-- Fuel sufficient for `parseMembers` on an encoded member list. -/
def membersFuel : List (List Char × Json) → Nat
  | [] => 0
  | (_, v) :: rest => 1 + max (jsonFuel v) (membersFuel rest)

end

theorem parseAny_succ (fuel : Nat) (mode : PMode) (s : List Char) :
    parseAny (fuel + 1) mode s = parseStep (parseAny fuel) mode s := rfl

theorem parseStep_value_null (rec : PMode → List Char → Option (PRes × List Char))
    (r : List Char) :
    parseStep rec .value ('n' :: 'u' :: 'l' :: 'l' :: r) = some (.val .null, r) := by
  rw [parseStep.eq_def]
  simp

theorem parseStep_value_true (rec : PMode → List Char → Option (PRes × List Char))
    (r : List Char) :
    parseStep rec .value ('t' :: 'r' :: 'u' :: 'e' :: r) =
      some (.val (.bool true), r) := by
  rw [parseStep.eq_def]
  simp

theorem parseStep_value_false (rec : PMode → List Char → Option (PRes × List Char))
    (r : List Char) :
    parseStep rec .value ('f' :: 'a' :: 'l' :: 's' :: 'e' :: r) =
      some (.val (.bool false), r) := by
  rw [parseStep.eq_def]
  simp

theorem parseStep_value_quote (rec : PMode → List Char → Option (PRes × List Char))
    (rest : List Char) :
    parseStep rec .value ('"' :: rest) =
      (parseStringBody rest).map (fun p => (.val (.str p.1), p.2)) := by
  rw [parseStep.eq_def]
  simp

theorem parseStep_value_lbrack (rec : PMode → List Char → Option (PRes × List Char))
    (rest : List Char) :
    parseStep rec .value ('[' :: rest) =
      (if (skipWs rest).head? = some ']' then some (.val (.arr []), (skipWs rest).tail)
       else
         match rec .items (skipWs rest) with
         | some (.items xs, r) => some (.val (.arr xs), r)
         | _ => none) := by
  rw [parseStep.eq_def]
  simp

theorem parseStep_value_lbrace (rec : PMode → List Char → Option (PRes × List Char))
    (rest : List Char) :
    parseStep rec .value ('{' :: rest) =
      (if (skipWs rest).head? = some '}' then some (.val (.obj []), (skipWs rest).tail)
       else
         match rec .members (skipWs rest) with
         | some (.members kvs, r) => some (.val (.obj kvs), r)
         | _ => none) := by
  rw [parseStep.eq_def]
  simp

theorem parseStep_value_other (rec : PMode → List Char → Option (PRes × List Char))
    (c : Char) (rest : List Char)
    (h1 : c ≠ 'n') (h2 : c ≠ 't') (h3 : c ≠ 'f') (h4 : c ≠ '"')
    (h5 : c ≠ '[') (h6 : c ≠ '{') :
    parseStep rec .value (c :: rest) =
      (parseInt (c :: rest)).map (fun p => (.val (.num p.1), p.2)) := by
  rw [parseStep.eq_def]
  simp [h1, h2, h3, h4, h5, h6]

theorem parseStep_items (rec : PMode → List Char → Option (PRes × List Char))
    (s : List Char) :
    parseStep rec .items s =
      (match rec .value s with
       | some (.val v, rest) =>
         if (skipWs rest).head? = some ',' then
           match rec .items (skipWs (skipWs rest).tail) with
           | some (.items xs, r) => some (.items (v :: xs), r)
           | _ => none
         else if (skipWs rest).head? = some ']' then some (.items [v], (skipWs rest).tail)
         else none
       | _ => none) := by
  rw [parseStep.eq_def]

theorem parseStep_members_quote (rec : PMode → List Char → Option (PRes × List Char))
    (rest : List Char) :
    parseStep rec .members ('"' :: rest) =
      (match parseStringBody rest with
       | none => none
       | some (k, r1) =>
         if (skipWs r1).head? = some ':' then
           match rec .value (skipWs (skipWs r1).tail) with
           | some (.val v, r3) =>
             if (skipWs r3).head? = some ',' then
               match rec .members (skipWs (skipWs r3).tail) with
               | some (.members kvs, r) => some (.members ((k, v) :: kvs), r)
               | _ => none
             else if (skipWs r3).head? = some '}' then some (.members [(k, v)], (skipWs r3).tail)
             else none
           | _ => none
         else none) := by
  rw [parseStep.eq_def]
  simp

theorem parseNat_nil : parseNat [] = none := rfl

theorem parseInt_intToChars (i : Int) (rest : List Char)
    (h : delimOk rest = true) :
    parseInt (intToChars i ++ rest) = some (i, rest) := by
  by_cases hneg : i < 0
  · have : intToChars i = '-' :: natToChars i.natAbs := by simp [intToChars, hneg]
    rw [this, List.cons_append, parseInt]
    simp only [List.head?_cons, List.tail_cons]
    rw [if_pos trivial, parseNat_natToChars i.natAbs rest h]
    have habs : (i.natAbs : Int) = -i := by omega
    simp [habs]
  · have : intToChars i = natToChars i.toNat := by simp [intToChars, hneg]
    obtain ⟨c, t, hct⟩ : ∃ c t, natToChars i.toNat = c :: t := by
      cases hnt : natToChars i.toNat with
      | nil => exact absurd hnt (natToChars_ne_nil _)
      | cons c t => exact ⟨c, t, rfl⟩
    have hdig : c.isDigit = true := by
      have := natToChars_all_digits i.toNat
      rw [hct] at this
      simp [List.all_cons] at this
      exact this.1
    have hminus : c ≠ '-' := isDigit_ne c '-' (by decide) hdig
    rw [this, hct, List.cons_append, parseInt]
    rw [if_neg (by simp [hminus]), ← List.cons_append, ← hct,
        parseNat_natToChars i.toNat rest h]
    simp
    omega

theorem encode_length_pos (v : Json) : 1 ≤ (encodeJson v).length := by
  obtain ⟨c, t, hv, _, _, _⟩ := encode_head_spec v
  rw [hv]
  simp

theorem encodeString_length (s : List Char) :
    (encodeString s).length = (encodeStringBody s).length + 2 := by
  simp [encodeString]

mutual

theorem jsonFuel_le (v : Json) : jsonFuel v ≤ (encodeJson v).length := by
  cases v with
  | null => simp [jsonFuel, encodeJson]
  | bool b => cases b <;> simp [jsonFuel, encodeJson]
  | num i => exact le_trans (by simp [jsonFuel]) (encode_length_pos (.num i))
  | str s =>
    rw [jsonFuel, encodeJson, encodeString]
    simp
  | arr xs =>
    rw [jsonFuel, encodeJson]
    have := itemsFuel_le xs
    simp only [List.length_cons, List.length_append, List.length_cons, List.length_nil]
    omega
  | obj kvs =>
    rw [jsonFuel, encodeJson]
    have := membersFuel_le kvs
    simp only [List.length_cons, List.length_append, List.length_cons, List.length_nil]
    omega

theorem itemsFuel_le (xs : List Json) :
    itemsFuel xs ≤ 1 + (encodeItems xs).length := by
  cases xs with
  | nil => simp [itemsFuel]
  | cons x rest =>
    cases rest with
    | nil =>
      rw [itemsFuel, itemsFuel, encodeItems]
      have := jsonFuel_le x
      omega
    | cons y ys =>
      rw [itemsFuel, encodeItems]
      have h1 := jsonFuel_le x
      have h2 := itemsFuel_le (y :: ys)
      have h3 := encode_length_pos x
      simp only [List.length_append, List.length_cons]
      omega

theorem membersFuel_le (kvs : List (List Char × Json)) :
    membersFuel kvs ≤ 1 + (encodeMembers kvs).length := by
  cases kvs with
  | nil => simp [membersFuel]
  | cons kv rest =>
    obtain ⟨k, v⟩ := kv
    cases rest with
    | nil =>
      rw [membersFuel, membersFuel, encodeMembers]
      have := jsonFuel_le v
      simp only [List.length_append, List.length_cons]
      omega
    | cons kv2 rest2 =>
      rw [membersFuel, encodeMembers]
      have h1 := jsonFuel_le v
      have h2 := membersFuel_le (kv2 :: rest2)
      have h3 : 2 ≤ (encodeString k).length := by rw [encodeString_length]; omega
      simp only [List.length_append, List.length_cons]
      omega

end

theorem jsonFuel_pos (v : Json) : 1 ≤ jsonFuel v := by
  cases v <;> simp [jsonFuel]

theorem encodeItems_cons_eq (y : Json) (ys : List Json) :
    ∃ t, encodeItems (y :: ys) = encodeJson y ++ t := by
  cases ys with
  | nil => exact ⟨[], by rw [encodeItems]; simp⟩
  | cons z zs => exact ⟨',' :: ' ' :: encodeItems (z :: zs), by rw [encodeItems]⟩

theorem skipWs_items_append (y : Json) (ys : List Json) (r : List Char) :
    skipWs (encodeItems (y :: ys) ++ r) = encodeItems (y :: ys) ++ r := by
  obtain ⟨t, ht⟩ := encodeItems_cons_eq y ys
  rw [ht, List.append_assoc, skipWs_encode_append, ← List.append_assoc]

theorem items_head_ne_rbrack (y : Json) (ys : List Json) (r : List Char) :
    (encodeItems (y :: ys) ++ r).head? ≠ some ']' := by
  obtain ⟨t, ht⟩ := encodeItems_cons_eq y ys
  obtain ⟨c, t2, hv, _, hc, _⟩ := encode_head_spec y
  rw [ht, hv]
  simp [hc]

theorem encodeMembers_cons_eq (k : List Char) (v : Json)
    (kvs : List (List Char × Json)) :
    ∃ t, encodeMembers ((k, v) :: kvs) = '"' :: t := by
  cases kvs with
  | nil =>
    refine ⟨(encodeStringBody k ++ ['"']) ++ ':' :: ' ' :: encodeJson v, ?_⟩
    rw [encodeMembers, encodeString]
    simp
  | cons kv2 rest2 =>
    refine ⟨(encodeStringBody k ++ ['"']) ++
      (':' :: ' ' :: encodeJson v ++ ',' :: ' ' :: encodeMembers (kv2 :: rest2)), ?_⟩
    rw [encodeMembers, encodeString]
    simp

theorem skipWs_members_append (k : List Char) (v : Json)
    (kvs : List (List Char × Json)) (r : List Char) :
    skipWs (encodeMembers ((k, v) :: kvs) ++ r) =
      encodeMembers ((k, v) :: kvs) ++ r := by
  obtain ⟨t, ht⟩ := encodeMembers_cons_eq k v kvs
  rw [ht, List.cons_append, skipWs_cons_not_space _ _ (by decide)]

theorem members_head_ne_rbrace (k : List Char) (v : Json)
    (kvs : List (List Char × Json)) (r : List Char) :
    (encodeMembers ((k, v) :: kvs) ++ r).head? ≠ some '}' := by
  obtain ⟨t, ht⟩ := encodeMembers_cons_eq k v kvs
  rw [ht]
  simp

theorem delimOk_of_head (c : Char) (t : List Char) (h : c.isDigit = false) :
    delimOk (c :: t) = true := by
  simp [delimOk, h]

mutual

/-- Round trip: the decoder recovers any encoded value, leaving the trailing
characters untouched (provided they cannot extend a number literal). -/
theorem parse_encode (v : Json) (fuel : Nat) (rest : List Char)
    (hfuel : jsonFuel v ≤ fuel) (hrest : delimOk rest = true) :
    parseAny fuel .value (encodeJson v ++ rest) = some (.val v, rest) := by
  obtain ⟨f, rfl⟩ : ∃ f, fuel = f + 1 :=
    ⟨fuel - 1, by have := jsonFuel_pos v; omega⟩
  rw [parseAny_succ]
  cases v with
  | null =>
    rw [encodeJson]
    simp only [List.cons_append, List.nil_append]
    exact parseStep_value_null _ rest
  | bool b =>
    cases b with
    | true =>
      rw [encodeJson]
      simp only [List.cons_append, List.nil_append]
      exact parseStep_value_true _ rest
    | false =>
      rw [encodeJson]
      simp only [List.cons_append, List.nil_append]
      exact parseStep_value_false _ rest
  | num i =>
    rw [encodeJson]
    have hshape : ∃ c t, intToChars i = c :: t ∧ (c = '-' ∨ c.isDigit = true) := by
      by_cases hneg : i < 0
      · exact ⟨'-', natToChars i.natAbs, by simp [intToChars, hneg], Or.inl rfl⟩
      · obtain ⟨c, t, hct⟩ : ∃ c t, natToChars i.toNat = c :: t := by
          cases hnt : natToChars i.toNat with
          | nil => exact absurd hnt (natToChars_ne_nil _)
          | cons c t => exact ⟨c, t, rfl⟩
        have hdig : c.isDigit = true := by
          have := natToChars_all_digits i.toNat
          rw [hct] at this
          simp [List.all_cons] at this
          exact this.1
        exact ⟨c, t, by simp [intToChars, hneg, hct], Or.inr hdig⟩
    obtain ⟨c, t, hct, hd⟩ := hshape
    have h1 : c ≠ 'n' := by
      rcases hd with rfl | hd
      · decide
      · exact isDigit_ne c 'n' (by decide) hd
    have h2 : c ≠ 't' := by
      rcases hd with rfl | hd
      · decide
      · exact isDigit_ne c 't' (by decide) hd
    have h3 : c ≠ 'f' := by
      rcases hd with rfl | hd
      · decide
      · exact isDigit_ne c 'f' (by decide) hd
    have h4 : c ≠ '"' := by
      rcases hd with rfl | hd
      · decide
      · exact isDigit_ne c '"' (by decide) hd
    have h5 : c ≠ '[' := by
      rcases hd with rfl | hd
      · decide
      · exact isDigit_ne c '[' (by decide) hd
    have h6 : c ≠ '{' := by
      rcases hd with rfl | hd
      · decide
      · exact isDigit_ne c '{' (by decide) hd
    rw [hct, List.cons_append,
        parseStep_value_other _ c _ h1 h2 h3 h4 h5 h6,
        ← List.cons_append, ← hct, parseInt_intToChars i rest hrest]
    rfl
  | str s =>
    rw [encodeJson, encodeString]
    simp only [List.cons_append, List.append_assoc, List.singleton_append, List.nil_append]
    rw [parseStep_value_quote, parseStringBody_encode]
    rfl
  | arr xs =>
    rw [jsonFuel] at hfuel
    cases xs with
    | nil =>
      rw [encodeJson, encodeItems]
      simp only [List.nil_append, List.cons_append]
      rw [parseStep_value_lbrack, skipWs_cons_not_space _ _ (by decide)]
      simp
    | cons x xs2 =>
      rw [encodeJson]
      simp only [List.cons_append, List.append_assoc, List.singleton_append, List.nil_append]
      rw [parseStep_value_lbrack, skipWs_items_append x xs2 (']' :: rest)]
      rw [if_neg (items_head_ne_rbrack x xs2 (']' :: rest))]
      rw [parse_encode_items x xs2 f rest (by omega)]
  | obj kvs =>
    rw [jsonFuel] at hfuel
    rcases kvs with _ | ⟨⟨k, v⟩, kvs2⟩
    · rw [encodeJson, encodeMembers]
      simp only [List.nil_append, List.cons_append]
      rw [parseStep_value_lbrace, skipWs_cons_not_space _ _ (by decide)]
      simp
    · rw [encodeJson]
      simp only [List.cons_append, List.append_assoc, List.singleton_append, List.nil_append]
      rw [parseStep_value_lbrace, skipWs_members_append k v kvs2 ('}' :: rest)]
      rw [if_neg (members_head_ne_rbrace k v kvs2 ('}' :: rest))]
      rw [parse_encode_members k v kvs2 f rest (by omega)]
termination_by fuel

/-- Round trip for the elements of a non-empty array. -/
theorem parse_encode_items (x : Json) (xs2 : List Json) (fuel : Nat)
    (rest : List Char) (hfuel : itemsFuel (x :: xs2) ≤ fuel) :
    parseAny fuel .items (encodeItems (x :: xs2) ++ ']' :: rest) =
      some (.items (x :: xs2), rest) := by
  rw [itemsFuel] at hfuel
  obtain ⟨f, rfl⟩ : ∃ f, fuel = f + 1 := ⟨fuel - 1, by omega⟩
  rw [parseAny_succ, parseStep_items]
  cases xs2 with
    | nil =>
      rw [encodeItems]
      rw [parse_encode x f (']' :: rest) (by omega) (delimOk_of_head _ _ (by decide))]
      simp only
      rw [skipWs_cons_not_space _ _ (by decide)]
      simp
    | cons y ys =>
      rw [encodeItems]
      simp only [List.cons_append, List.append_assoc]
      rw [parse_encode x f (',' :: ' ' :: (encodeItems (y :: ys) ++ ']' :: rest))
            (by omega) (delimOk_of_head _ _ (by decide))]
      simp only
      rw [skipWs_cons_not_space _ _ (by decide)]
      simp only [List.head?_cons, List.tail_cons, if_pos rfl]
      rw [skipWs_cons_space _ _ (by decide), skipWs_items_append y ys (']' :: rest)]
      rw [parse_encode_items y ys f rest (by omega)]
      simp
termination_by fuel

/-- Round trip for the members of a non-empty object. -/
theorem parse_encode_members (k : List Char) (v : Json)
    (kvs2 : List (List Char × Json)) (fuel : Nat) (rest : List Char)
    (hfuel : membersFuel ((k, v) :: kvs2) ≤ fuel) :
    parseAny fuel .members (encodeMembers ((k, v) :: kvs2) ++ '}' :: rest) =
      some (.members ((k, v) :: kvs2), rest) := by
  rw [membersFuel] at hfuel
  obtain ⟨f, rfl⟩ : ∃ f, fuel = f + 1 := ⟨fuel - 1, by omega⟩
  rw [parseAny_succ]
  rcases kvs2 with _ | ⟨⟨k2, v2⟩, rest2⟩
  · rw [encodeMembers, encodeString]
    simp only [List.cons_append, List.append_assoc, List.singleton_append, List.nil_append]
    rw [parseStep_members_quote, parseStringBody_encode]
    simp only
    rw [skipWs_cons_not_space _ _ (by decide)]
    simp only [List.head?_cons, List.tail_cons, if_pos rfl]
    rw [skipWs_cons_space _ _ (by decide), skipWs_encode_append]
    rw [parse_encode v f ('}' :: rest) (by omega) (delimOk_of_head _ _ (by decide))]
    simp only
    rw [skipWs_cons_not_space _ _ (by decide)]
    simp
  · rw [encodeMembers, encodeString]
    simp only [List.cons_append, List.append_assoc, List.singleton_append, List.nil_append]
    rw [parseStep_members_quote, parseStringBody_encode]
    simp only
    rw [skipWs_cons_not_space _ _ (by decide)]
    simp only [List.head?_cons, List.tail_cons, if_pos rfl]
    rw [skipWs_cons_space _ _ (by decide), skipWs_encode_append]
    rw [parse_encode v f (',' :: ' ' :: (encodeMembers ((k2, v2) :: rest2) ++ '}' :: rest))
          (by omega) (delimOk_of_head _ _ (by decide))]
    simp only
    rw [skipWs_cons_not_space _ _ (by decide)]
    simp only [List.head?_cons, List.tail_cons, if_pos rfl]
    rw [skipWs_cons_space _ _ (by decide), skipWs_members_append k2 v2 rest2 ('}' :: rest)]
    rw [parse_encode_members k2 v2 rest2 f rest (by omega)]
    simp
termination_by fuel

end

/-- The decoder model recovers any encoded value exactly. -/
theorem loads_encode (v : Json) : loads (encodeJson v) = some v := by
  have h1 : skipWs (encodeJson v) = encodeJson v := by
    have := skipWs_encode_append v []
    simpa using this
  have h2 : parseAny ((encodeJson v).length + 1) .value (encodeJson v) =
      some (.val v, []) := by
    have := parse_encode v ((encodeJson v).length + 1) []
      (by have := jsonFuel_le v; omega) rfl
    simpa using this
  rw [loads, parseValue, h1, h2]
  simp [skipWs]

/-- A character the `_extract_json` scanner treats as inert: not a backslash,
quote or brace. -/
def plainChar (c : Char) : Bool :=
  !(c = '\\') && !(c = '"') && !(c = '{') && !(c = '}')

theorem scanGo_cons (c : Char) (rest : List Char) (st : ScanState) :
    scanGo (c :: rest) st =
      if scanDone st c then some 1
      else (scanGo rest (scanStep st c)).map (· + 1) := by
  rw [scanGo]

theorem runScan_nil (st : ScanState) : runScan [] st = st := rfl

theorem runScan_cons (c : Char) (rest : List Char) (st : ScanState) :
    runScan (c :: rest) st = runScan rest (scanStep st c) := rfl

theorem runScan_append (xs ys : List Char) (st : ScanState) :
    runScan (xs ++ ys) st = runScan ys (runScan xs st) := by
  simp [runScan, List.foldl_append]

theorem scanGo_append_none (xs : List Char) :
    ∀ (ys : List Char) (st : ScanState), scanGo xs st = none →
      scanGo (xs ++ ys) st = (scanGo ys (runScan xs st)).map (· + xs.length) := by
  induction xs with
  | nil =>
    intro ys st _
    simp [runScan_nil]
  | cons c xs ih =>
    intro ys st h
    rw [scanGo_cons] at h
    by_cases hd : scanDone st c
    · simp [hd] at h
    · rw [if_neg hd] at h
      have hx : scanGo xs (scanStep st c) = none := by
        cases hx : scanGo xs (scanStep st c) with
        | none => rfl
        | some m => rw [hx] at h; simp at h
      rw [List.cons_append, scanGo_cons, if_neg hd, ih ys (scanStep st c) hx,
          runScan_cons]
      simp only [List.length_cons, Option.map_map]
      cases scanGo ys (runScan xs (scanStep st c)) with
      | none => simp
      | some m =>
        simp
        all_goals omega

theorem scanGo_append_some (xs : List Char) :
    ∀ (ys : List Char) (st : ScanState) (n : Nat), scanGo xs st = some n →
      scanGo (xs ++ ys) st = some n := by
  induction xs with
  | nil => intro ys st n h; simp [scanGo] at h
  | cons c xs ih =>
    intro ys st n h
    rw [scanGo_cons] at h
    by_cases hd : scanDone st c
    · rw [if_pos hd] at h
      rw [List.cons_append, scanGo_cons, if_pos hd]
      exact h
    · rw [if_neg hd] at h
      cases hx : scanGo xs (scanStep st c) with
      | none => rw [hx] at h; simp at h
      | some m =>
        rw [hx] at h
        simp at h
        rw [List.cons_append, scanGo_cons, if_neg hd, ih ys (scanStep st c) m hx]
        simp [h]

theorem scanGo_le_length (xs : List Char) :
    ∀ (st : ScanState) (n : Nat), scanGo xs st = some n → n ≤ xs.length := by
  induction xs with
  | nil => intro st n h; simp [scanGo] at h
  | cons c xs ih =>
    intro st n h
    rw [scanGo_cons] at h
    by_cases hd : scanDone st c
    · rw [if_pos hd] at h
      simp at h
      simp [← h]
    · rw [if_neg hd] at h
      cases hx : scanGo xs (scanStep st c) with
      | none => rw [hx] at h; simp at h
      | some m =>
        rw [hx] at h
        simp at h
        have := ih (scanStep st c) m hx
        simp [← h]
        omega

theorem scanStep_plain (c : Char) (st : ScanState)
    (hc : plainChar c = true) (hesc : st.escape = false) :
    scanStep st c = st := by
  simp only [plainChar, Bool.and_eq_true, Bool.not_eq_true', decide_eq_false_iff_not] at hc
  obtain ⟨⟨⟨h1, h2⟩, h3⟩, h4⟩ := hc
  simp [scanStep, hesc, h1, h2, h3, h4]

theorem scanDone_plain (c : Char) (st : ScanState) (hc : plainChar c = true) :
    scanDone st c = false := by
  simp only [plainChar, Bool.and_eq_true, Bool.not_eq_true', decide_eq_false_iff_not] at hc
  obtain ⟨⟨⟨h1, h2⟩, h3⟩, h4⟩ := hc
  simp [scanDone, h4]

theorem scan_plain (xs : List Char) :
    ∀ st : ScanState, xs.all plainChar = true → st.escape = false →
      scanGo xs st = none ∧ runScan xs st = st := by
  induction xs with
  | nil => intro st _ _; exact ⟨rfl, rfl⟩
  | cons c xs ih =>
    intro st hall hesc
    simp only [List.all_cons, Bool.and_eq_true] at hall
    have hstep := scanStep_plain c st hall.1 hesc
    have hdone := scanDone_plain c st hall.1
    obtain ⟨ih1, ih2⟩ := ih st hall.2 hesc
    constructor
    · rw [scanGo_cons, if_neg (by simp [hdone]), hstep, ih1]
      rfl
    · rw [runScan_cons, hstep, ih2]

theorem scanGo_cons_not_done (c : Char) (rest : List Char) (st : ScanState)
    (h : scanDone st c = false) :
    scanGo (c :: rest) st = (scanGo rest (scanStep st c)).map (· + 1) := by
  rw [scanGo_cons, h]
  simp

theorem scanGo_cons_done (c : Char) (rest : List Char) (st : ScanState)
    (h : scanDone st c = true) :
    scanGo (c :: rest) st = some 1 := by
  rw [scanGo_cons, h]
  simp

theorem escapeChar_quote : escapeChar '"' = ['\\', '"'] := rfl

theorem escapeChar_backslash : escapeChar '\\' = ['\\', '\\'] := rfl

theorem escapeChar_other (c : Char) (hq : c ≠ '"') (hb : c ≠ '\\') :
    escapeChar c = [c] := by
  simp [escapeChar, hq, hb]

/-- Inside a string, the scanner passes over any encoded string body without
completing and returns to the same state: string content never affects the
depth counter. -/
theorem scan_stringBody (s : List Char) :
    ∀ st : ScanState, st.in_string = true → st.escape = false →
      scanGo (encodeStringBody s) st = none ∧ runScan (encodeStringBody s) st = st := by
  induction s with
  | nil => intro st _ _; exact ⟨rfl, rfl⟩
  | cons c s ih =>
    intro st hin hesc
    rw [encodeStringBody]
    by_cases hq : c = '"'
    · subst hq
      rw [escapeChar_quote]
      simp only [List.cons_append, List.nil_append]
      have hst1 : scanStep st '\\' = { st with escape := true } := by
        simp [scanStep, hesc]
      have hd1 : scanDone st '\\' = false := by
        simp [scanDone, hesc]
      have hst2 : scanStep { st with escape := true } '"' = st := by
        cases st
        simp_all [scanStep]
      have hd2 : scanDone { st with escape := true } '"' = false := by
        simp [scanDone]
      obtain ⟨ih1, ih2⟩ := ih st hin hesc
      constructor
      · rw [scanGo_cons_not_done _ _ _ hd1, hst1, scanGo_cons_not_done _ _ _ hd2,
            hst2, ih1]
        rfl
      · rw [runScan_cons, hst1, runScan_cons, hst2, ih2]
    · by_cases hb : c = '\\'
      · subst hb
        rw [escapeChar_backslash]
        simp only [List.cons_append, List.nil_append]
        have hst1 : scanStep st '\\' = { st with escape := true } := by
          simp [scanStep, hesc]
        have hd1 : scanDone st '\\' = false := by
          simp [scanDone, hesc]
        have hst2 : scanStep { st with escape := true } '\\' = st := by
          cases st
          simp_all [scanStep]
        have hd2 : scanDone { st with escape := true } '\\' = false := by
          simp [scanDone]
        obtain ⟨ih1, ih2⟩ := ih st hin hesc
        constructor
        · rw [scanGo_cons_not_done _ _ _ hd1, hst1, scanGo_cons_not_done _ _ _ hd2,
              hst2, ih1]
          rfl
        · rw [runScan_cons, hst1, runScan_cons, hst2, ih2]
      · rw [escapeChar_other c hq hb]
        simp only [List.cons_append, List.nil_append]
        have hst : scanStep st c = st := by
          simp [scanStep, hesc, hq, hb, hin]
        have hd : scanDone st c = false := by
          simp [scanDone, hin]
        obtain ⟨ih1, ih2⟩ := ih st hin hesc
        constructor
        · rw [scanGo_cons_not_done _ _ _ hd, hst, ih1]
          rfl
        · rw [runScan_cons, hst, ih2]

/-- The scanner passes over a whole encoded string (quotes included) without
completing, toggling the in-string flag on and off. -/
theorem scan_encodeString (k : List Char) (st : ScanState)
    (hin : st.in_string = false) (hesc : st.escape = false) :
    scanGo (encodeString k) st = none ∧ runScan (encodeString k) st = st := by
  rw [encodeString]
  have hst1 : scanStep st '"' = { st with in_string := !st.in_string } := by
    simp [scanStep, hesc]
  have hd1 : scanDone st '"' = false := by
    simp [scanDone]
  have hin1 : ({ st with in_string := !st.in_string } : ScanState).in_string = true := by
    simp [hin]
  have hesc1 : ({ st with in_string := !st.in_string } : ScanState).escape = false := by
    simp [hesc]
  obtain ⟨hb1, hb2⟩ := scan_stringBody k { st with in_string := !st.in_string } hin1 hesc1
  have hst2 : scanStep { st with in_string := !st.in_string } '"' = st := by
    cases st
    simp_all [scanStep]
  have hd2 : scanDone { st with in_string := !st.in_string } '"' = false := by
    simp [scanDone]
  constructor
  · rw [scanGo_cons_not_done _ _ _ hd1, hst1,
        scanGo_append_none _ _ _ hb1, hb2, scanGo_cons_not_done _ _ _ hd2, hst2]
    rfl
  · rw [runScan_cons, hst1, runScan_append, hb2, runScan_cons, hst2, runScan_nil]

theorem all_plain_of_all_digit (s : List Char) (h : s.all Char.isDigit = true) :
    s.all plainChar = true := by
  induction s with
  | nil => rfl
  | cons c t ih =>
    simp only [List.all_cons, Bool.and_eq_true] at h ⊢
    refine ⟨?_, ih h.2⟩
    have h1 : c ≠ '\\' := isDigit_ne c '\\' (by decide) h.1
    have h2 : c ≠ '"' := isDigit_ne c '"' (by decide) h.1
    have h3 : c ≠ '{' := isDigit_ne c '{' (by decide) h.1
    have h4 : c ≠ '}' := isDigit_ne c '}' (by decide) h.1
    simp [plainChar, h1, h2, h3, h4]

theorem intToChars_all_plain (i : Int) : (intToChars i).all plainChar = true := by
  by_cases hneg : i < 0
  · simp only [intToChars, if_pos hneg, List.all_cons, Bool.and_eq_true]
    exact ⟨by decide, all_plain_of_all_digit _ (natToChars_all_digits _)⟩
  · simp only [intToChars, if_neg hneg]
    exact all_plain_of_all_digit _ (natToChars_all_digits _)

theorem scan_seq (xs ys : List Char) (st st1 : ScanState)
    (hx1 : scanGo xs st = none) (hx2 : runScan xs st = st1)
    (hy1 : scanGo ys st1 = none) :
    scanGo (xs ++ ys) st = none := by
  rw [scanGo_append_none _ _ _ hx1, hx2, hy1]
  rfl

theorem runScan_seq (xs ys : List Char) (st st1 : ScanState)
    (hx2 : runScan xs st = st1) :
    runScan (xs ++ ys) st = runScan ys st1 := by
  rw [runScan_append, hx2]

mutual

/-- The scanner passes over any encoded value at depth at least 1 without
completing, and ends in the state it started in: a nested value never brings
the depth to zero. -/
theorem scan_encode (v : Json) (d : Int) (hd : 1 ≤ d) :
    scanGo (encodeJson v) ⟨d, false, false⟩ = none ∧
      runScan (encodeJson v) ⟨d, false, false⟩ = ⟨d, false, false⟩ := by
  cases v with
  | null =>
    rw [encodeJson]
    exact scan_plain _ _ (by decide) rfl
  | bool b =>
    cases b with
    | true =>
      rw [encodeJson]
      exact scan_plain _ _ (by decide) rfl
    | false =>
      rw [encodeJson]
      exact scan_plain _ _ (by decide) rfl
  | num i =>
    rw [encodeJson]
    exact scan_plain _ _ (intToChars_all_plain i) rfl
  | str s =>
    rw [encodeJson]
    exact scan_encodeString s _ rfl rfl
  | arr xs =>
    rw [encodeJson]
    obtain ⟨hi1, hi2⟩ := scan_encode_items xs d hd
    have hdone : scanDone ⟨d, false, false⟩ '[' = false := by simp [scanDone]
    have hstep : scanStep ⟨d, false, false⟩ '[' = ⟨d, false, false⟩ := by
      simp [scanStep]
    have hcl1 : scanGo [']'] (⟨d, false, false⟩ : ScanState) = none := by
      rw [scanGo_cons_not_done _ _ _ (by simp [scanDone])]
      rfl
    constructor
    · rw [scanGo_cons_not_done _ _ _ hdone, hstep,
          scan_seq _ _ _ _ hi1 hi2 hcl1]
      rfl
    · rw [runScan_cons, hstep, runScan_seq _ _ _ _ hi2, runScan_cons,
          runScan_nil]
      simp [scanStep]
  | obj kvs =>
    rw [encodeJson]
    obtain ⟨hm1, hm2⟩ := scan_encode_members kvs (d + 1) (by omega)
    have hdone : scanDone ⟨d, false, false⟩ '{' = false := by simp [scanDone]
    have hstep : scanStep ⟨d, false, false⟩ '{' = ⟨d + 1, false, false⟩ := by
      simp [scanStep]
    have hcl0 : scanDone ⟨d + 1, false, false⟩ '}' = false := by
      simp [scanDone]
      omega
    have hcl1 : scanGo ['}'] (⟨d + 1, false, false⟩ : ScanState) = none := by
      rw [scanGo_cons_not_done _ _ _ hcl0]
      rfl
    constructor
    · rw [scanGo_cons_not_done _ _ _ hdone, hstep,
          scan_seq _ _ _ _ hm1 hm2 hcl1]
      rfl
    · rw [runScan_cons, hstep, runScan_seq _ _ _ _ hm2, runScan_cons,
          runScan_nil]
      simp [scanStep]
      all_goals omega

/-- The scanner passes over an encoded element list at depth at least 1
without completing and without a net state change. -/
theorem scan_encode_items (xs : List Json) (d : Int) (hd : 1 ≤ d) :
    scanGo (encodeItems xs) ⟨d, false, false⟩ = none ∧
      runScan (encodeItems xs) ⟨d, false, false⟩ = ⟨d, false, false⟩ := by
  cases xs with
  | nil =>
    rw [encodeItems]
    exact ⟨rfl, rfl⟩
  | cons x rest =>
    cases rest with
    | nil =>
      rw [encodeItems]
      exact scan_encode x d hd
    | cons y ys =>
      rw [encodeItems]
      obtain ⟨hx1, hx2⟩ := scan_encode x d hd
      obtain ⟨hr1, hr2⟩ := scan_encode_items (y :: ys) d hd
      have hsep1 : scanGo (',' :: ' ' :: encodeItems (y :: ys))
          (⟨d, false, false⟩ : ScanState) = none := by
        rw [scanGo_cons_not_done _ _ _ (scanDone_plain _ _ (by decide)),
            scanStep_plain _ _ (by decide) rfl,
            scanGo_cons_not_done _ _ _ (scanDone_plain _ _ (by decide)),
            scanStep_plain _ _ (by decide) rfl, hr1]
        rfl
      constructor
      · exact scan_seq _ _ _ _ hx1 hx2 hsep1
      · rw [runScan_seq _ _ _ _ hx2, runScan_cons,
            scanStep_plain _ _ (by decide) rfl, runScan_cons,
            scanStep_plain _ _ (by decide) rfl, hr2]

/-- The scanner passes over an encoded member list at depth at least 1
without completing and without a net state change. -/
theorem scan_encode_members (kvs : List (List Char × Json)) (d : Int) (hd : 1 ≤ d) :
    scanGo (encodeMembers kvs) ⟨d, false, false⟩ = none ∧
      runScan (encodeMembers kvs) ⟨d, false, false⟩ = ⟨d, false, false⟩ := by
  cases kvs with
  | nil =>
    rw [encodeMembers]
    exact ⟨rfl, rfl⟩
  | cons kv rest =>
    obtain ⟨k, v⟩ := kv
    cases rest with
    | nil =>
      rw [encodeMembers]
      obtain ⟨hk1, hk2⟩ := scan_encodeString k ⟨d, false, false⟩ rfl rfl
      obtain ⟨hv1, hv2⟩ := scan_encode v d hd
      have hsep1 : scanGo (':' :: ' ' :: encodeJson v)
          (⟨d, false, false⟩ : ScanState) = none := by
        rw [scanGo_cons_not_done _ _ _ (scanDone_plain _ _ (by decide)),
            scanStep_plain _ _ (by decide) rfl,
            scanGo_cons_not_done _ _ _ (scanDone_plain _ _ (by decide)),
            scanStep_plain _ _ (by decide) rfl, hv1]
        rfl
      constructor
      · exact scan_seq _ _ _ _ hk1 hk2 hsep1
      · rw [runScan_seq _ _ _ _ hk2, runScan_cons,
            scanStep_plain _ _ (by decide) rfl, runScan_cons,
            scanStep_plain _ _ (by decide) rfl, hv2]
    | cons kv2 rest2 =>
      rw [encodeMembers]
      obtain ⟨hk1, hk2⟩ := scan_encodeString k ⟨d, false, false⟩ rfl rfl
      obtain ⟨hv1, hv2⟩ := scan_encode v d hd
      obtain ⟨hr1, hr2⟩ := scan_encode_members (kv2 :: rest2) d hd
      have hsep2 : scanGo (',' :: ' ' :: encodeMembers (kv2 :: rest2))
          (⟨d, false, false⟩ : ScanState) = none := by
        rw [scanGo_cons_not_done _ _ _ (scanDone_plain _ _ (by decide)),
            scanStep_plain _ _ (by decide) rfl,
            scanGo_cons_not_done _ _ _ (scanDone_plain _ _ (by decide)),
            scanStep_plain _ _ (by decide) rfl, hr1]
        rfl
      have hsep2r : runScan (',' :: ' ' :: encodeMembers (kv2 :: rest2))
          (⟨d, false, false⟩ : ScanState) = ⟨d, false, false⟩ := by
        rw [runScan_cons, scanStep_plain _ _ (by decide) rfl, runScan_cons,
            scanStep_plain _ _ (by decide) rfl, hr2]
      have hsep0 : scanGo (':' :: ' ' :: encodeJson v)
          (⟨d, false, false⟩ : ScanState) = none := by
        rw [scanGo_cons_not_done _ _ _ (scanDone_plain _ _ (by decide)),
            scanStep_plain _ _ (by decide) rfl,
            scanGo_cons_not_done _ _ _ (scanDone_plain _ _ (by decide)),
            scanStep_plain _ _ (by decide) rfl, hv1]
        rfl
      have hsep0r : runScan (':' :: ' ' :: encodeJson v)
          (⟨d, false, false⟩ : ScanState) = ⟨d, false, false⟩ := by
        rw [runScan_cons, scanStep_plain _ _ (by decide) rfl, runScan_cons,
            scanStep_plain _ _ (by decide) rfl, hv2]
      have hleft1 : scanGo (encodeString k ++ ':' :: ' ' :: encodeJson v)
          (⟨d, false, false⟩ : ScanState) = none :=
        scan_seq _ _ _ _ hk1 hk2 hsep0
      have hleft2 : runScan (encodeString k ++ ':' :: ' ' :: encodeJson v)
          (⟨d, false, false⟩ : ScanState) = ⟨d, false, false⟩ := by
        rw [runScan_seq _ _ _ _ hk2, hsep0r]
      constructor
      · exact scan_seq _ _ _ _ hleft1 hleft2 hsep2
      · rw [runScan_seq _ _ _ _ hleft2, hsep2r]

end

/-- On the full encoding of an object, the scan completes exactly at the last
character, returning the full length. -/
theorem scanGo_encode_obj (kvs : List (List Char × Json)) :
    scanGo (encodeJson (.obj kvs)) ⟨0, false, false⟩ =
      some (encodeJson (.obj kvs)).length := by
  rw [encodeJson]
  obtain ⟨hm1, hm2⟩ := scan_encode_members kvs 1 (le_refl 1)
  have hdone : scanDone ⟨0, false, false⟩ '{' = false := by simp [scanDone]
  have hstep : scanStep ⟨0, false, false⟩ '{' = ⟨1, false, false⟩ := by
    simp [scanStep]
  have hcl : scanGo ['}'] (⟨1, false, false⟩ : ScanState) = some 1 :=
    scanGo_cons_done _ _ _ (by simp [scanDone])
  rw [scanGo_cons_not_done _ _ _ hdone, hstep,
      scanGo_append_none _ _ _ hm1, hm2, hcl]
  simp [List.length_append]
  omega

/-- On any strict prefix of the encoding of an object, the scan never
completes. -/
theorem scanGo_encode_obj_take (kvs : List (List Char × Json)) (k : Nat)
    (hk : k < (encodeJson (.obj kvs)).length) :
    scanGo ((encodeJson (.obj kvs)).take k) ⟨0, false, false⟩ = none := by
  cases hsc : scanGo ((encodeJson (.obj kvs)).take k) ⟨0, false, false⟩ with
  | none => rfl
  | some m =>
    exfalso
    have h1 := scanGo_append_some ((encodeJson (.obj kvs)).take k)
      ((encodeJson (.obj kvs)).drop k) _ m hsc
    rw [List.take_append_drop, scanGo_encode_obj] at h1
    have h2 := scanGo_le_length _ _ _ hsc
    simp [List.length_take] at h2
    simp at h1
    omega

theorem encode_obj_head (kvs : List (List Char × Json)) :
    encodeJson (.obj kvs) = '{' :: (encodeMembers kvs ++ ['}']) := by
  rw [encodeJson]

theorem stripStartsWithBrace_lbrace (t : List Char) :
    stripStartsWithBrace ('{' :: t) = true := by
  rw [stripStartsWithBrace, skipWs_cons_not_space _ _ (by decide)]
  rfl

/-- `_extract_json` on the exact encoding of an object returns that object
with the full encoding consumed. -/
theorem extract_encode_obj (kvs : List (List Char × Json)) :
    extract_json (encodeJson (.obj kvs)) =
      .found (.obj kvs) (encodeJson (.obj kvs)).length := by
  rw [extract_json, encode_obj_head, stripStartsWithBrace_lbrace]
  rw [if_pos rfl, extractScan, ← encode_obj_head, scanGo_encode_obj]
  simp [List.take_length, loads_encode]

/-- `_extract_json` on the encoding of an object followed by more data
returns that object, consuming exactly its encoding. -/
theorem extract_encode_obj_append (kvs : List (List Char × Json))
    (more : List Char) :
    extract_json (encodeJson (.obj kvs) ++ more) =
      .found (.obj kvs) (encodeJson (.obj kvs)).length := by
  rw [extract_json, encode_obj_head, List.cons_append, stripStartsWithBrace_lbrace]
  rw [if_pos rfl, extractScan, ← List.cons_append, ← encode_obj_head]
  rw [scanGo_append_some _ more _ _ (scanGo_encode_obj kvs)]
  simp [List.take_left, loads_encode]

/-- `_extract_json` on any strict prefix of the encoding of an object reports
`(None, 0)`: the frame is incomplete. -/
theorem extract_encode_obj_take (kvs : List (List Char × Json)) (k : Nat)
    (hk : k < (encodeJson (.obj kvs)).length) :
    extract_json ((encodeJson (.obj kvs)).take k) = .noObject 0 := by
  cases k with
  | zero => rfl
  | succ k2 =>
    have htake : (encodeJson (.obj kvs)).take (k2 + 1) =
        '{' :: (encodeMembers kvs ++ ['}']).take k2 := by
      rw [encode_obj_head]
      rfl
    rw [extract_json, htake, stripStartsWithBrace_lbrace, if_pos rfl, extractScan,
        ← htake, scanGo_encode_obj_take kvs (k2 + 1) hk]

/-- Claim C1: for every JSON object, `_extract_json` on any strict prefix of
its encoding reports no object with consumed index 0; on the full encoding it
returns exactly that object with consumed index equal to the encoding's
length; and extracting twice from the concatenation of two encodings,
truncating by the returned index each time, yields the two objects in order
with no bytes left over. -/
theorem extract_json_framing (A B : List (List Char × Json)) (k : Nat)
    (hwfA : wfJson (.obj A) = true) (hwfB : wfJson (.obj B) = true)
    (hk : k < (encodeJson (.obj A)).length) :
    extract_json ((encodeJson (.obj A)).take k) = .noObject 0
    ∧ extract_json (encodeJson (.obj A)) =
        .found (.obj A) (encodeJson (.obj A)).length
    ∧ extract_json (encodeJson (.obj A) ++ encodeJson (.obj B)) =
        .found (.obj A) (encodeJson (.obj A)).length
    ∧ (encodeJson (.obj A) ++ encodeJson (.obj B)).drop
        (encodeJson (.obj A)).length = encodeJson (.obj B)
    ∧ extract_json (encodeJson (.obj B)) =
        .found (.obj B) (encodeJson (.obj B)).length
    ∧ (encodeJson (.obj B)).drop (encodeJson (.obj B)).length = [] := by
  refine ⟨extract_encode_obj_take A k hk, extract_encode_obj A,
    extract_encode_obj_append A _, List.drop_left _ _, extract_encode_obj B, ?_⟩
  simp

/-- Witness for C1 at the objects `{"a": 1}` and `{"b": 2}` with prefix
length 0. -/
theorem extract_json_framing_witness :
    wfJson (.obj [(['a'], Json.num 1)]) = true
    ∧ wfJson (.obj [(['b'], Json.num 2)]) = true
    ∧ 0 < (encodeJson (.obj [(['a'], Json.num 1)])).length
    ∧ extract_json (encodeJson (.obj [(['a'], Json.num 1)])) =
        .found (.obj [(['a'], Json.num 1)])
          (encodeJson (.obj [(['a'], Json.num 1)])).length := by
  have hwfA : wfJson (.obj [(['a'], Json.num 1)]) = true := by
    simp [wfJson, wfMembers, wfChar]
  have hwfB : wfJson (.obj [(['b'], Json.num 2)]) = true := by
    simp [wfJson, wfMembers, wfChar]
  have hk : 0 < (encodeJson (.obj [(['a'], Json.num 1)])).length :=
    encode_length_pos _
  exact ⟨hwfA, hwfB, hk,
    (extract_json_framing [(['a'], Json.num 1)] [(['b'], Json.num 2)] 0
      hwfA hwfB hk).2.1⟩

/-- Counterexample to C6 as stated: on the brace-free buffer `"abc"`,
`_extract_json` returns consumed index 3 (the buffer length), not 0. -/
theorem extract_json_no_brace_cex :
    consumedIdx (extract_json ['a', 'b', 'c']) = 3 ∧ (3 : Nat) ≠ 0 :=
  ⟨rfl, by decide⟩

/-- Claim C6 (amended): for every buffer containing no `{`, `_extract_json`
reports that no object is present with a consumed index equal to the buffer's
length (not 0); the caller still retains the whole buffer, because the
message loop stops without truncating whenever no object is returned. -/
theorem extract_json_no_brace (buffer : List Char) (h : '{' ∉ buffer) :
    extract_json buffer = .noObject buffer.length
    ∧ ∀ (fuel : Nat) (st : ServerCounts),
        processBuffer fuel st buffer = .ok st buffer [] := by
  have hstrip : stripStartsWithBrace buffer = false := by
    rw [stripStartsWithBrace]
    cases hs : skipWs buffer with
    | nil => rfl
    | cons c t =>
      have hmem : c ∈ buffer := by
        have hsub : (skipWs buffer).Sublist buffer := List.dropWhile_sublist _
        exact hsub.mem (by rw [hs]; exact List.mem_cons_self c t)
      have : c ≠ '{' := fun he => h (he ▸ hmem)
      simp [this]
  have hfind : buffer.findIdx? (· = '{') = none := by
    rw [List.findIdx?_eq_none_iff]
    intro x hx
    have : x ≠ '{' := fun he => h (he ▸ hx)
    simp [this]
  have hext : extract_json buffer = .noObject buffer.length := by
    rw [extract_json, hstrip]
    simp [hfind]
  refine ⟨hext, ?_⟩
  intro fuel st
  cases fuel with
  | zero => rw [processBuffer]
  | succ f =>
    rw [processBuffer]
    by_cases hb : buffer = []
    · simp [hb]
    · simp only [if_neg hb, hext]

/-- Witness for C6 (amended) at the buffer `"abc"`. -/
theorem extract_json_no_brace_witness :
    '{' ∉ (['a', 'b', 'c'] : List Char)
    ∧ extract_json ['a', 'b', 'c'] = .noObject 3
    ∧ processBuffer 5 ⟨0, 0, 0⟩ ['a', 'b', 'c'] = .ok ⟨0, 0, 0⟩ ['a', 'b', 'c'] [] := by
  have h : '{' ∉ (['a', 'b', 'c'] : List Char) := by decide
  obtain ⟨h1, h2⟩ := extract_json_no_brace ['a', 'b', 'c'] h
  exact ⟨h, h1, h2 5 ⟨0, 0, 0⟩⟩

/-- Claim C7: the scanner processes each character in order — a pending
escape consumes the character, a backslash sets the pending-escape flag, an
unescaped quote toggles the in-string flag, and inside a string no character
(braces included) changes the depth or completes the scan — so an object
containing a brace inside a string value is extracted correctly and in full. -/
theorem extract_json_string_context (st : ScanState) (c : Char)
    (k s : List Char) :
    (st.escape = true → scanStep st c = { st with escape := false }
      ∧ scanDone st c = false)
    ∧ (st.escape = false → scanStep st '\\' = { st with escape := true })
    ∧ (st.escape = false →
        scanStep st '"' = { st with in_string := !st.in_string })
    ∧ (st.escape = false → st.in_string = true → c ≠ '\\' → c ≠ '"' →
        scanStep st c = st ∧ scanDone st c = false)
    ∧ ('{' ∈ s → wfJson (.obj [(k, .str s)]) = true →
        extract_json (encodeJson (.obj [(k, .str s)])) =
          .found (.obj [(k, .str s)]) (encodeJson (.obj [(k, .str s)])).length) := by
  refine ⟨?_, ?_, ?_, ?_, ?_⟩
  · intro hesc
    exact ⟨by simp [scanStep, hesc], by simp [scanDone, hesc]⟩
  · intro hesc
    simp [scanStep, hesc]
  · intro hesc
    simp [scanStep, hesc]
  · intro hesc hin hb hq
    exact ⟨by simp [scanStep, hesc, hb, hq, hin], by simp [scanDone, hin]⟩
  · intro _ _
    exact extract_encode_obj [(k, .str s)]

/-- Witness for C7 at the object with key `note` and value `"a { b"`. -/
theorem extract_json_string_context_witness :
    (⟨1, false, true⟩ : ScanState).escape = true
    ∧ '{' ∈ (['a', ' ', '{', ' ', 'b'] : List Char)
    ∧ wfJson (.obj [(['n', 'o', 't', 'e'],
        .str ['a', ' ', '{', ' ', 'b'])]) = true
    ∧ extract_json (encodeJson (.obj [(['n', 'o', 't', 'e'],
        .str ['a', ' ', '{', ' ', 'b'])])) =
      .found (.obj [(['n', 'o', 't', 'e'], .str ['a', ' ', '{', ' ', 'b'])])
        (encodeJson (.obj [(['n', 'o', 't', 'e'],
          .str ['a', ' ', '{', ' ', 'b'])])).length := by
  have hmem : '{' ∈ (['a', ' ', '{', ' ', 'b'] : List Char) := by decide
  have hwf : wfJson (.obj [(['n', 'o', 't', 'e'],
      .str ['a', ' ', '{', ' ', 'b'])]) = true := by
    simp [wfJson, wfMembers, wfChar]
  exact ⟨rfl, hmem, hwf,
    (extract_json_string_context ⟨1, false, true⟩ 'x'
      ['n', 'o', 't', 'e'] ['a', ' ', '{', ' ', 'b']).2.2.2.2 hmem hwf⟩

theorem chunksAux_length_le (size : Nat) (hsize : 1 ≤ size) :
    ∀ (fuel : Nat) (l : List α), ∀ c ∈ chunksAux size fuel l, c.length ≤ size := by
  intro fuel
  induction fuel with
  | zero => intro l c hc; simp [chunksAux] at hc
  | succ f ih =>
    intro l c hc
    cases l with
    | nil => simp [chunksAux] at hc
    | cons x xs =>
      simp only [chunksAux] at hc
      rcases List.mem_cons.mp hc with rfl | hc2
      · simpa using List.length_take_le size (x :: xs)
      · exact ih _ c hc2

theorem chunksAux_join (size : Nat) (hsize : 1 ≤ size) :
    ∀ (fuel : Nat) (l : List α), l.length ≤ fuel →
      (chunksAux size fuel l).flatten = l := by
  intro fuel
  induction fuel with
  | zero =>
    intro l hl
    have : l = [] := List.eq_nil_of_length_eq_zero (by omega)
    subst this
    rfl
  | succ f ih =>
    intro l hl
    cases l with
    | nil => rfl
    | cons x xs =>
      simp only [chunksAux, List.flatten_cons]
      rw [ih ((x :: xs).drop size) (by simp at hl ⊢; omega)]
      exact List.take_append_drop size (x :: xs)

/-- Claim C3: for every message and chunk size at least 1, the chunks written
by `_send_packets` (in `GC2Simulator` and `PacketLossStressTester`) are each
at most chunk-size bytes and their in-order concatenation is exactly the
UTF-8 encoding of the message. -/
theorem send_packets_chunks_rejoin (M : String) (size : Nat) (hsize : 1 ≤ size) :
    (∀ c ∈ send_packets_chunks size (utf8Bytes M), c.length ≤ size)
    ∧ (send_packets_chunks size (utf8Bytes M)).flatten = utf8Bytes M := by
  constructor
  · exact chunksAux_length_le size hsize _ _
  · exact chunksAux_join size hsize _ _ (le_refl _)

/-- Witness for C3 at a concrete device message and the default 64-byte
chunk size. -/
theorem send_packets_chunks_rejoin_witness :
    (1 : Nat) ≤ 64
    ∧ ((send_packets_chunks 64 (utf8Bytes "0H\nSHOT_ID=1\n\t")).flatten =
        utf8Bytes "0H\nSHOT_ID=1\n\t") :=
  ⟨by decide, (send_packets_chunks_rejoin "0H\nSHOT_ID=1\n\t" 64 (by decide)).2⟩

/-- A line begins with the given key. -/
def startsWithKey (key l : List Char) : Prop := l.take key.length = key

theorem mem_intersperse (sep : α) :
    ∀ (l : List α) (x : α), x ∈ l.intersperse sep → x = sep ∨ x ∈ l
  | [], x, h => by simp [List.intersperse] at h
  | [a], x, h => by
    simp [List.intersperse] at h
    simp [h]
  | a :: b :: t, x, h => by
    simp only [List.intersperse] at h
    rcases List.mem_cons.mp h with rfl | h2
    · right; exact List.mem_cons_self _ _
    · rcases List.mem_cons.mp h2 with rfl | h3
      · left; rfl
      · rcases mem_intersperse sep (b :: t) x h3 with h4 | h4
        · left; exact h4
        · right; exact List.mem_cons_of_mem _ h4

theorem interPhase_not_mem_sendPackets (size : Nat) (data : List Char) :
    WireEvent.interPhaseDelay ∉ sendPacketsEvents size data := by
  intro h
  rw [sendPacketsEvents] at h
  rcases mem_intersperse _ _ _ h with h1 | h1
  · simp at h1
  · simp [List.mem_map] at h1

/-- Claim C5: the early reading omits the spin lines and carries
milliseconds-since-contact 200; the final reading repeats the same shot
identity and ballistic lines, adds the back-spin and side-spin lines, and
carries milliseconds-since-contact 1000; and in the per-writer trace of
`fire_shot` the whole early transmission and the inter-phase delay precede
every part of the final transmission. -/
theorem fire_shot_two_phase (shot : ShotData) (size : Nat) :
    (∀ l ∈ build_shot_lines shot 200 false,
        ¬ startsWithKey "BACK_RPM=".toList l ∧ ¬ startsWithKey "SIDE_RPM=".toList l)
    ∧ ("MSEC_SINCE_CONTACT=".toList ++ natToChars 200) ∈ build_shot_lines shot 200 false
    ∧ ("MSEC_SINCE_CONTACT=".toList ++ natToChars 1000) ∈ build_shot_lines shot 1000 true
    ∧ (200 : Nat) < 1000
    ∧ ("SHOT_ID=".toList ++ natToChars shot.shot_id) ∈ build_shot_lines shot 200 false
    ∧ ("SHOT_ID=".toList ++ natToChars shot.shot_id) ∈ build_shot_lines shot 1000 true
    ∧ ("SPEED_MPH=".toList ++ shot.speed_mph) ∈ build_shot_lines shot 200 false
    ∧ ("SPEED_MPH=".toList ++ shot.speed_mph) ∈ build_shot_lines shot 1000 true
    ∧ ("AZIMUTH_DEG=".toList ++ shot.direction) ∈ build_shot_lines shot 200 false
    ∧ ("AZIMUTH_DEG=".toList ++ shot.direction) ∈ build_shot_lines shot 1000 true
    ∧ ("ELEVATION_DEG=".toList ++ shot.launch_angle) ∈ build_shot_lines shot 200 false
    ∧ ("ELEVATION_DEG=".toList ++ shot.launch_angle) ∈ build_shot_lines shot 1000 true
    ∧ ("BACK_RPM=".toList ++ shot.back_spin) ∈ build_shot_lines shot 1000 true
    ∧ ("SIDE_RPM=".toList ++ shot.side_spin) ∈ build_shot_lines shot 1000 true
    ∧ fire_shot_events size shot =
        sendPacketsEvents size (build_shot_message shot 200 false)
        ++ WireEvent.interPhaseDelay
          :: sendPacketsEvents size (build_shot_message shot 1000 true)
    ∧ WireEvent.interPhaseDelay ∉
        sendPacketsEvents size (build_shot_message shot 200 false)
    ∧ WireEvent.interPhaseDelay ∉
        sendPacketsEvents size (build_shot_message shot 1000 true) := by
  refine ⟨?_, ?_, ?_, by omega, ?_, ?_, ?_, ?_, ?_, ?_, ?_, ?_, ?_, ?_, rfl,
    interPhase_not_mem_sendPackets _ _, interPhase_not_mem_sendPackets _ _⟩
  · cases h1 : shot.club_speed with
    | none =>
      simp [build_shot_lines, h1, List.forall_mem_append, List.forall_mem_cons,
        startsWithKey]
    | some cs =>
      cases h2 : shot.path <;> cases h3 : shot.attack_angle <;>
        cases h4 : shot.face_to_target <;>
        simp [build_shot_lines, h1, h2, h3, h4, List.forall_mem_append,
          List.forall_mem_cons, startsWithKey]
  all_goals simp [build_shot_lines]

/-- Witness for C5 at a concrete driver shot without club data. -/
theorem fire_shot_two_phase_witness :
    ("0H".toList ∈ build_shot_lines
        ⟨1, "165.00".toList, "11.00".toList, "0.50".toList, "2500".toList,
         "2400".toList, "-100".toList, none, none, none, none⟩ 200 false)
    ∧ ¬ startsWithKey "BACK_RPM=".toList "0H".toList
    ∧ ("BACK_RPM=".toList ++ "2400".toList) ∈ build_shot_lines
        ⟨1, "165.00".toList, "11.00".toList, "0.50".toList, "2500".toList,
         "2400".toList, "-100".toList, none, none, none, none⟩ 1000 true := by
  have hmem : "0H".toList ∈ build_shot_lines
      ⟨1, "165.00".toList, "11.00".toList, "0.50".toList, "2500".toList,
       "2400".toList, "-100".toList, none, none, none, none⟩ 200 false := by
    simp [build_shot_lines]
  refine ⟨hmem, ?_, ?_⟩
  · exact ((fire_shot_two_phase
      ⟨1, "165.00".toList, "11.00".toList, "0.50".toList, "2500".toList,
       "2400".toList, "-100".toList, none, none, none, none⟩ 64).1
      "0H".toList hmem).1
  · exact (fire_shot_two_phase
      ⟨1, "165.00".toList, "11.00".toList, "0.50".toList, "2500".toList,
       "2400".toList, "-100".toList, none, none, none, none⟩ 64).2.2.2.2.2.2.2.2.2.2.2.2.1

/-- Claim C4: `_process_message` dispatches on the capability flags: a
heartbeat only bumps the heartbeat counter and returns no response; a
non-heartbeat without ball data is a status update, only bumps the status
counter and returns no response; a shot bumps the shot counter and returns
exactly the one fixed response, whose `Code` is 201 and which carries a
`Player` record. -/
theorem process_message_dispatch (st : ServerCounts)
    (message options hb bd : Json)
    (hop : pyDictGet message "ShotDataOptions".toList (.obj []) = some options)
    (hhb : pyDictGet options "IsHeartBeat".toList (.bool false) = some hb)
    (hbd : pyDictGet options "ContainsBallData".toList (.bool false) = some bd) :
    (pyTruthy hb = true →
      process_message st message =
        some ({ st with heartbeat_count := st.heartbeat_count + 1 }, none))
    ∧ (pyTruthy hb = false → pyTruthy bd = false →
      process_message st message =
        some ({ st with status_count := st.status_count + 1 }, none))
    ∧ (∀ ball_data club_data sp,
        pyTruthy hb = false → pyTruthy bd = true →
        pyDictGet message "BallData".toList (.obj []) = some ball_data →
        pyDictGet ball_data "Speed".toList (.num 0) = some sp →
        pyDictGet message "ClubData".toList (.obj []) = some club_data →
        pyTruthy club_data = false →
        process_message st message =
          some ({ st with shot_count := st.shot_count + 1 },
                some gsproShotResponse))
    ∧ (∀ ball_data club_data sp cs,
        pyTruthy hb = false → pyTruthy bd = true →
        pyDictGet message "BallData".toList (.obj []) = some ball_data →
        pyDictGet ball_data "Speed".toList (.num 0) = some sp →
        pyDictGet message "ClubData".toList (.obj []) = some club_data →
        pyTruthy club_data = true →
        pyDictGet club_data "Speed".toList (.num 0) = some cs →
        process_message st message =
          some ({ st with shot_count := st.shot_count + 1 },
                some gsproShotResponse))
    ∧ pyDictGet gsproShotResponse "Code".toList .null = some (.num 201)
    ∧ pyDictGet gsproShotResponse "Player".toList .null =
        some (.obj [("Handed".toList, .str "RH".toList),
                    ("Club".toList, .str "DR".toList),
                    ("DistanceToTarget".toList, .num 250)]) := by
  simp at hop hhb hbd
  refine ⟨?_, ?_, ?_, ?_, by simp [gsproShotResponse, pyDictGet, lookupMember], ?_⟩
  · intro h1
    simp [process_message, hop, hhb, hbd, h1]
  · intro h1 h2
    simp [process_message, hop, hhb, hbd, h1, h2]
  · intro ball_data club_data sp h1 h2 h3 h4 h5 h6
    simp at h3 h4 h5
    simp [process_message, hop, hhb, hbd, h1, h2, h3, h4, h5, h6]
  · intro ball_data club_data sp cs h1 h2 h3 h4 h5 h6 h7
    simp at h3 h4 h5 h7
    simp [process_message, hop, hhb, hbd, h1, h2, h3, h4, h5, h6, h7]
  · simp [gsproShotResponse, pyDictGet, lookupMember]

/-- Witness for C4: a status message (ball-data flag false) at zero counters. -/
theorem process_message_dispatch_witness :
    process_message ⟨0, 0, 0⟩
      (.obj [("ShotDataOptions".toList,
              .obj [("IsHeartBeat".toList, .bool false),
                    ("ContainsBallData".toList, .bool false)])]) =
      some (⟨0, 0, 1⟩, none)
    ∧ process_message ⟨0, 0, 0⟩
      (.obj [("ShotDataOptions".toList,
              .obj [("ContainsBallData".toList, .bool true)]),
             ("BallData".toList, .obj [("Speed".toList, .num 165)])]) =
      some (⟨1, 0, 0⟩, some gsproShotResponse) := by
  constructor
  · have h := (process_message_dispatch ⟨0, 0, 0⟩
      (.obj [("ShotDataOptions".toList,
              .obj [("IsHeartBeat".toList, .bool false),
                    ("ContainsBallData".toList, .bool false)])])
      (.obj [("IsHeartBeat".toList, .bool false),
             ("ContainsBallData".toList, .bool false)])
      (.bool false) (.bool false)
      (by simp [pyDictGet, lookupMember])
      (by simp [pyDictGet, lookupMember])
      (by simp [pyDictGet, lookupMember])).2.1 rfl rfl
    simpa using h
  · have h := (process_message_dispatch ⟨0, 0, 0⟩
      (.obj [("ShotDataOptions".toList,
              .obj [("ContainsBallData".toList, .bool true)]),
             ("BallData".toList, .obj [("Speed".toList, .num 165)])])
      (.obj [("ContainsBallData".toList, .bool true)])
      (.bool false) (.bool true)
      (by simp [pyDictGet, lookupMember])
      (by simp [pyDictGet, lookupMember])
      (by simp [pyDictGet, lookupMember])).2.2.1
      (.obj [("Speed".toList, .num 165)]) (.obj []) (.num 165)
      rfl rfl
      (by simp [pyDictGet, lookupMember])
      (by simp [pyDictGet, lookupMember])
      (by simp [pyDictGet, lookupMember])
      rfl
    simpa using h

/-- Claim C9: the heartbeat check runs first, so a message whose options set
both `IsHeartBeat` and `ContainsBallData` is counted as a heartbeat and gets
no response: the heartbeat flag takes precedence. -/
theorem process_message_heartbeat_precedence (st : ServerCounts)
    (message options hb bd : Json)
    (hop : pyDictGet message "ShotDataOptions".toList (.obj []) = some options)
    (hhb : pyDictGet options "IsHeartBeat".toList (.bool false) = some hb)
    (hbd : pyDictGet options "ContainsBallData".toList (.bool false) = some bd)
    (hhbt : pyTruthy hb = true) (hbdt : pyTruthy bd = true) :
    process_message st message =
      some ({ st with heartbeat_count := st.heartbeat_count + 1 }, none) := by
  simp at hop hhb hbd
  simp [process_message, hop, hhb, hbd, hhbt]

/-- Witness for C9: both flags set; only the heartbeat counter moves and no
response is produced. -/
theorem process_message_heartbeat_precedence_witness :
    process_message ⟨0, 0, 0⟩
      (.obj [("ShotDataOptions".toList,
              .obj [("IsHeartBeat".toList, .bool true),
                    ("ContainsBallData".toList, .bool true)])]) =
      some (⟨0, 1, 0⟩, none) := by
  have h := process_message_heartbeat_precedence ⟨0, 0, 0⟩
    (.obj [("ShotDataOptions".toList,
            .obj [("IsHeartBeat".toList, .bool true),
                  ("ContainsBallData".toList, .bool true)])])
    (.obj [("IsHeartBeat".toList, .bool true),
           ("ContainsBallData".toList, .bool true)])
    (.bool true) (.bool true)
    (by simp [pyDictGet, lookupMember])
    (by simp [pyDictGet, lookupMember])
    (by simp [pyDictGet, lookupMember])
    rfl rfl
  simpa using h

theorem send_message_built (c : GSProClient) (m : GSProShotMessage)
    (e : Bool) (o : SocketOutcome) : (send_message c m e o).built = some m := by
  unfold send_message
  repeat' split
  all_goals rfl

theorem send_message_shot_number (c : GSProClient) (m : GSProShotMessage)
    (e : Bool) (o : SocketOutcome) :
    (send_message c m e o).client.shot_number = c.shot_number := by
  unfold send_message
  repeat' split
  all_goals try rfl
  all_goals (dsimp only; split <;> rfl)

/-- Counterexample to C2 as stated: `connect` returns `True` even when the
initial heartbeat's exchange raises `OSError` — the handler inside
`_send_message` clears `_connected` and fires the disconnect observers, but
`connect` still falls through to `return True`.  So `connect` returning true
does not entail `is_connected`. -/
theorem connect_true_not_connected_cex :
    (connect { initClient with disconnect_callbacks := [7] } true .osError).ok = true
    ∧ (connect { initClient with disconnect_callbacks := [7] } true
        .osError).client.connected = false
    ∧ (connect { initClient with disconnect_callbacks := [7] } true
        .osError).disconnect_notified = [7] := by
  exact ⟨rfl, rfl, rfl⟩

/-- Claim C2 (amended): when the initial heartbeat exchange does not raise
`OSError`, `connect` returns true with `is_connected` true; a read timeout in
`_send_message` returns no response and leaves the client untouched; an
`OSError` while connected clears `_connected` and fires every registered
disconnect observer once; an `OSError` while already disconnected fires
nothing — in particular a second consecutive `OSError` exchange fires no
observer again. -/
theorem client_disconnect_semantics (c : GSProClient) (m : GSProShotMessage)
    (e : Bool) :
    (∀ hb, hb ≠ SocketOutcome.osError →
      (connect c true hb).ok = true ∧ (connect c true hb).client.connected = true)
    ∧ ((send_message c m e .timeout).response = none
        ∧ (send_message c m e .timeout).client = c
        ∧ (send_message c m e .timeout).disconnect_notified = [])
    ∧ (c.socket = true → c.connected = true →
        (send_message c m e .osError).client.connected = false
        ∧ (send_message c m e .osError).disconnect_notified = c.disconnect_callbacks)
    ∧ (c.connected = false → (send_message c m e .osError).disconnect_notified = [])
    ∧ (c.socket = true → c.connected = true →
        (send_message (send_message c m e .osError).client m e
          .osError).disconnect_notified = []) := by
  refine ⟨?_, ?_, ?_, ?_, ?_⟩
  · intro hb hne
    cases hb with
    | ok received => simp [connect, send_heartbeat, send_message]
    | timeout => simp [connect, send_heartbeat, send_message]
    | osError => exact absurd rfl hne
  · cases hs : c.socket <;> simp [send_message, hs]
  · intro hs hc
    simp [send_message, hs, hc]
  · intro hc
    cases hs : c.socket <;> simp [send_message, hs, hc]
  · intro hs hc
    simp [send_message, hs, hc]

/-- Witness for C2: a fresh client connects cleanly; a connected client with
one registered observer loses the connection and fires it on `OSError`. -/
theorem client_disconnect_semantics_witness :
    (connect initClient true (.ok none)).ok = true
    ∧ (connect initClient true (.ok none)).client.connected = true
    ∧ (send_message
        { initClient with socket := true, connected := true, disconnect_callbacks := [7] }
        { ShotNumber := 0,
          ShotDataOptions :=
            { ContainsBallData := false, ContainsClubData := false,
              LaunchMonitorIsReady := true, IsHeartBeat := true } }
        true .osError).client.connected = false
    ∧ (send_message
        { initClient with socket := true, connected := true, disconnect_callbacks := [7] }
        { ShotNumber := 0,
          ShotDataOptions :=
            { ContainsBallData := false, ContainsClubData := false,
              LaunchMonitorIsReady := true, IsHeartBeat := true } }
        true .osError).disconnect_notified = [7] := by
  have h1 := client_disconnect_semantics initClient
    { ShotNumber := 0,
      ShotDataOptions :=
        { ContainsBallData := false, ContainsClubData := false,
          LaunchMonitorIsReady := true, IsHeartBeat := true } } true
  have h2 := client_disconnect_semantics
    { initClient with socket := true, connected := true, disconnect_callbacks := [7] }
    { ShotNumber := 0,
      ShotDataOptions :=
        { ContainsBallData := false, ContainsClubData := false,
          LaunchMonitorIsReady := true, IsHeartBeat := true } } true
  have hone := h1.1 (.ok none) (by decide)
  have htwo := h2.2.2.1 rfl rfl
  refine ⟨hone.1, hone.2, htwo.1, ?_⟩
  rw [htwo.2]

theorem fireShotsFrom_shotNumbers (shots : List GC2ShotData) :
    ∀ c : GSProClient, c.socket = true → c.connected = true →
      (fireShotsFrom c shots).map (fun m => m.ShotNumber)
        = List.range' (c.shot_number + 1) shots.length := by
  induction shots with
  | nil => intro c hs hc; simp [fireShotsFrom]
  | cons s rest ih =>
    intro c hs hc
    have hstep : send_shot c s (.ok none) =
        { client := { c with shot_number := c.shot_number + 1 },
          response := none,
          built := some (shotMessageFromGC2 s (c.shot_number + 1)),
          disconnect_notified := [], response_notified := [] } := by
      simp [send_shot, send_message, hs, hc]
    have ihc := ih { c with shot_number := c.shot_number + 1 } hs hc
    simp only [fireShotsFrom, hstep, List.map_append, List.map_cons, List.map_nil,
      List.length_cons, ihc]
    simp [shotMessageFromGC2, List.range']

/-- Claim C8: the session shot number starts at 0 at construction; a
`send_shot` while connected increments it by exactly one before building the
message, which carries the incremented number; `send_heartbeat` and
`send_status` never modify it; so the n-th shot of a session carries
`ShotNumber` n. -/
theorem shot_number_sequencing (c : GSProClient) (s : GC2ShotData)
    (st : GC2BallStatus) (o : SocketOutcome) (shots : List GC2ShotData) :
    initClient.shot_number = 0
    ∧ (c.connected = true → c.socket = true →
        (send_shot c s o).client.shot_number = c.shot_number + 1
        ∧ (send_shot c s o).built = some (shotMessageFromGC2 s (c.shot_number + 1)))
    ∧ (send_heartbeat c o).client.shot_number = c.shot_number
    ∧ (send_status c st o).client.shot_number = c.shot_number
    ∧ (c.connected = true → c.socket = true →
        (fireShotsFrom c shots).map (fun m => m.ShotNumber)
          = List.range' (c.shot_number + 1) shots.length) := by
  refine ⟨rfl, ?_, ?_, ?_, ?_⟩
  · intro hc hs
    have hss : send_shot c s o =
        send_message { c with shot_number := c.shot_number + 1 }
          (shotMessageFromGC2 s (c.shot_number + 1)) true o := by
      simp [send_shot, hs, hc]
    rw [hss, send_message_shot_number, send_message_built]
    exact ⟨rfl, rfl⟩
  · cases hc : c.connected <;> cases hs : c.socket <;>
      simp [send_heartbeat, hc, hs, send_message_shot_number]
  · cases hc : c.connected <;> cases hs : c.socket <;>
      simp [send_status, hc, hs, send_message_shot_number]
  · intro hc hs
    exact fireShotsFrom_shotNumbers shots c hs hc

/-- Witness for C8: from a fresh connected client, three shots carry shot
numbers 1, 2, 3; a single shot moves the counter from 0 to 1; a heartbeat
leaves it alone. -/
theorem shot_number_sequencing_witness :
    (fireShotsFrom { initClient with socket := true, connected := true }
        [⟨Json.null⟩, ⟨Json.null⟩, ⟨Json.null⟩]).map (fun m => m.ShotNumber)
      = [1, 2, 3]
    ∧ (send_shot { initClient with socket := true, connected := true }
        ⟨Json.null⟩ (.ok none)).client.shot_number = 1
    ∧ (send_heartbeat { initClient with socket := true, connected := true }
        (.ok none)).client.shot_number = 0 := by
  have h := shot_number_sequencing
    { initClient with socket := true, connected := true }
    ⟨Json.null⟩ ⟨true, true⟩ (.ok none) [⟨Json.null⟩, ⟨Json.null⟩, ⟨Json.null⟩]
  refine ⟨?_, ?_, ?_⟩
  · have hfire := h.2.2.2.2 rfl rfl
    simpa [List.range'] using hfire
  · exact (h.2.1 rfl rfl).1
  · exact h.2.2.1

/-- Claim C10: `send_heartbeat` and `send_status` always return `None`: when
not connected they return early, and otherwise they pass
`expect_response=False`, on which path `_send_message` returns `None`. -/
theorem heartbeat_status_no_response (c : GSProClient) (st : GC2BallStatus)
    (o : SocketOutcome) :
    (send_heartbeat c o).response = none ∧ (send_status c st o).response = none := by
  have hm : ∀ m, (send_message c m false o).response = none := by
    intro m
    unfold send_message
    repeat' split
    all_goals first
      | rfl
      | simp_all
  refine ⟨?_, ?_⟩
  · cases hc : c.connected <;> cases hs : c.socket <;>
      simp [send_heartbeat, hc, hs, hm]
  · cases hc : c.connected <;> cases hs : c.socket <;>
      simp [send_status, hc, hs, hm]
